import Mathlib

/-!
Verification development for the `disperse.js` work-distribution engine
(source: `src/index.ts`, class `Operation`, class `NamedWorker`, and the
`taskProviderFromList` adapter).

The coordinator is single-threaded JavaScript: task bodies, worker pull
loops and the coordinator's internal steps are asynchronous units that
interleave on one logical timeline, with suspension only at `await`
points.  We embed it as a labeled transition system `step : St → Lab →
Option St`: every transition is one maximal synchronous segment of the
source between suspension points, and external collaborators (the task
provider's returned promise, a task body's submissions and settlement,
a worker runner's result) resolve at nondeterministically chosen steps.

Correspondence of state fields to `src/index.ts`:
* `taskProviderLive` — whether `this.taskProvider` is still non-null
  (line 13; set to null at line 128 when the provider yields nothing);
* `supply` — the tasks the external provider will still yield, in order
  (modelling the list-backed provider of `taskProviderFromList`,
  lines 199-204);
* `maxConcurrentTasks`, `workers` (only the count of `this.workers`
  matters: it is read only via `.length` at line 163 and `.push` at 56);
* `pendingTasks`, `runningTasks`, `failedTasks`, `queuedActions`,
  `runningActions` — the arrays of lines 17-21.  Tasks are identified by
  a `tid` freshly allocated when the provider yields them (JavaScript
  object identity of the task closure, used by `indexOf`/`splice` at
  lines 145-146 and 152-153); queued actions are identified by an `aid`
  freshly allocated when `performAction` wraps them (object identity of
  the `WrappedAction` created at lines 79-82);
* `notifyPending` — whether `this._notifyPromise` is non-null
  (lines 24-25; `_notifyResolve` is always null/non-null together
  with it);
* `finished` — whether `this._finishedResolve` has been invoked, i.e.
  whether `this._finishedPromise` (returned by `waitUntilFinished`,
  lines 60-62) has completed;
* `coros` — the program counters of all suspended/runnable
  asynchronous units;
* ghost observation logs (no counterpart arrays in the source; they
  record events as they happen): `queries` counts the invocations of
  `this.taskProvider()` (line 125); `submittedLog` records each
  `queuedActions.push` (line 79) in order; `servedLog` records each
  successful `queuedActions.shift()` (lines 91, 99) in order;
  `runnerLog` records each settled `runner(action.a)` call with its
  outcome (lines 69-74); `resolvedActions` records each invocation of a
  wrapper's `callback` (line 71), i.e. each resolution of the promise
  handed back by `performAction`; `rejectedActions` records each
  invocation of the `reject` of that promise — the source binds
  `reject` at line 78 and never calls it, so no transition ever touches
  this field; `bodyLog` records each settlement of a started task body
  with its outcome (the `.then`/`.catch` handlers of lines 144-156).
-/

namespace Disperse

/-- Behaviour of one external task body (the opaque `Task<A, R>`
callback): `segs` lists the sizes of the bursts of `performAction`
submissions the body makes, one burst per synchronous segment of the
body, and `fails` tells whether the body's own promise finally
rejects.  Action payloads are opaque to the coordinator and are not
modelled. -/
structure TaskSpec where
  segs : List Nat
  fails : Bool
deriving DecidableEq

/-- A task held by the scheduler: its behaviour plus the identity `tid`
modelling JavaScript object identity of the task closure. -/
structure RTask where
  tid : Nat
  segs : List Nat
  fails : Bool
deriving DecidableEq

/-- Which caller an `enqueueTasksIfNeeded` activation belongs to: the
one awaited inside a worker's `getNextAction` (line 90), or a
fire-and-forget call from a task-completion handler (lines 148, 155).
The former proceeds to the `queuedActions.shift()` of line 91 when the
loop exits; the latter just ends. -/
inductive EtinKind
  | worker
  | standalone
deriving DecidableEq

/-- Program counter of one asynchronous unit of the coordinator.

* `etin k` — runnable at the `while` check of `enqueueTasksIfNeeded`
  (line 112);
* `awaitProvider k` — suspended at `await this.taskProvider()`
  (line 125) inside `startNewTask`, called from `enqueueTasksIfNeeded`;
* `tryShift` — a worker runnable at a `queuedActions.shift()` of
  `getNextAction` (line 91 or 99);
* `notifyBlocked` — a worker suspended on `await this.waitForNotify()`
  (line 98) with a genuine pending promise;
* `awaitRunner aid` — a worker suspended at `await runner(action.a)`
  (line 69) while executing the dequeued action `aid`;
* `spt blocked` — a `startPendingTasks` activation (lines 135-158) at
  its `while` check; `blocked = true` means it is suspended on a
  genuine `_notifyPromise`, `blocked = false` means it is runnable. -/
inductive Coro
  | etin (k : EtinKind)
  | awaitProvider (k : EtinKind)
  | tryShift
  | notifyBlocked
  | awaitRunner (aid : Nat)
  | spt (blocked : Bool)
deriving DecidableEq

/-- Global state of one `Operation` run, plus ghost observation logs. -/
structure St where
  supply : List TaskSpec
  taskProviderLive : Bool
  maxConcurrentTasks : Option Nat
  workers : Nat
  nextTid : Nat
  nextAid : Nat
  pendingTasks : List RTask
  runningTasks : List Nat
  failedTasks : List Nat
  liveBodies : List RTask
  queuedActions : List Nat
  runningActions : List Nat
  notifyPending : Bool
  finished : Bool
  coros : List Coro
  queries : Nat
  submittedLog : List Nat
  servedLog : List Nat
  runnerLog : List (Nat × Bool)
  resolvedActions : List Nat
  rejectedActions : List Nat
  bodyLog : List (Nat × Bool)
deriving DecidableEq

/-- Source lines 160-165: the explicitly configured value if present,
otherwise `this.workers.length * 3`, computed from the worker count at
the moment of the call (nothing is cached). -/
def getMaxConcurrentTasks (maxConcurrentTasks : Option Nat) (workers : Nat) : Nat :=
  match maxConcurrentTasks with
  | some m => m
  | none => workers * 3

/-- The effective concurrency ceiling of a state: always recomputed
from the current fields, exactly as every call site of
`getMaxConcurrentTasks` (lines 114, 137) recomputes it. -/
def ceiling (s : St) : Nat :=
  getMaxConcurrentTasks s.maxConcurrentTasks s.workers

/-- Effect of `notifyAll` (lines 30-36) on a waiting unit: when the
pending promise is resolved, a worker blocked at line 98 becomes
runnable at its following `shift`, and a blocked `startPendingTasks`
becomes runnable at its `while` recheck. -/
def wakeCoro : Coro → Coro
  | .notifyBlocked => .tryShift
  | .spt true => .spt false
  | c => c

/-- The action a unit is currently executing through a runner, if
any. -/
def coroAid : Coro → Option Nat
  | .awaitRunner a => some a
  | _ => none

/-- Actions currently held by some worker between `shift` and runner
settlement: the in-flight executions. -/
def inflightL (cs : List Coro) : List Nat :=
  cs.filterMap coroAid

/-- Replace the `segs` of the first task with identity `tid` (a body
consuming its next burst). -/
def updateBody (tid : Nat) (rest : List Nat) : List RTask → List RTask
  | [] => []
  | b :: bs => if b.tid = tid then { b with segs := rest } :: bs else b :: updateBody tid rest bs

/-- Remove the first task with identity `tid` (the body has settled and
its record leaves `liveBodies`). -/
def removeBody (tid : Nat) : List RTask → List RTask
  | [] => []
  | b :: bs => if b.tid = tid then bs else b :: removeBody tid bs

/-- Synchronous prefix of `startPendingTasks` (lines 135-158), run
when `startNewTask` calls it without awaiting (line 132): if the
ceiling is reached it suspends on `waitForNotify` — faithfully to the
source, when no `_notifyPromise` exists yet the call installs one but
returns `undefined` (the missing `return` at line 40), so the awaiting
activation stays runnable; otherwise it shifts `pendingTasks`, pushes
the task onto `runningTasks` and starts its body. -/
def sptSync (s : St) : St :=
  if s.runningTasks.length ≥ ceiling s then
    if s.notifyPending then { s with coros := s.coros ++ [.spt true] }
    else { s with notifyPending := true, coros := s.coros ++ [.spt false] }
  else
    match s.pendingTasks with
    | [] => s
    | p :: ps =>
      { s with pendingTasks := ps
               runningTasks := s.runningTasks ++ [p.tid]
               liveBodies := s.liveBodies ++ [p] }

/-- `registerWorker` (lines 54-58): append the worker and start its
pull loop, which immediately calls `distributeAction`, hence
`getNextAction`, hence `enqueueTasksIfNeeded`. -/
def registerWorkerStep (s : St) : St :=
  { s with workers := s.workers + 1, coros := s.coros ++ [.etin .worker] }

/-- Exit of the `enqueueTasksIfNeeded` loop: a worker activation
resumes `getNextAction` at the `shift` of line 91 (after the `await` of
line 90); a fire-and-forget activation simply ends. -/
def etinExit (s : St) (k : EtinKind) : St :=
  match k with
  | .worker => { s with coros := (s.coros.erase (.etin .worker)) ++ [.tryShift] }
  | .standalone => { s with coros := s.coros.erase (.etin .standalone) }

/-- One iteration of the `enqueueTasksIfNeeded` loop (lines 111-120):
if the queue is empty and the provider is non-null, either break
because the ceiling is reached (lines 114-117), or enter
`startNewTask`, whose guard (line 123) passes in the same synchronous
segment, and invoke `this.taskProvider()` (line 125), suspending on its
promise.  Otherwise the `while` condition fails and the loop exits. -/
def etinStep (s : St) (k : EtinKind) : Option St :=
  if Coro.etin k ∈ s.coros then
    if s.queuedActions = [] ∧ s.taskProviderLive then
      if s.runningTasks.length ≥ ceiling s then some (etinExit s k)
      else some { s with queries := s.queries + 1
                         coros := (s.coros.erase (.etin k)) ++ [.awaitProvider k] }
    else some (etinExit s k)
  else none

/-- Resolution of the provider's promise (the continuation of line 125,
one synchronous segment of `startNewTask`): with nothing left the
provider yields the exhaustion marker and `this.taskProvider` is set to
null (lines 126-130); with a task, it is pushed onto `pendingTasks`
(line 131) — receiving a fresh identity — and `startPendingTasks()` is
called without await (line 132), running its synchronous prefix.  In
both cases the `enqueueTasksIfNeeded` loop recheck is scheduled. -/
def providerReturnStep (s : St) (k : EtinKind) : Option St :=
  if Coro.awaitProvider k ∈ s.coros then
    match s.supply with
    | [] =>
      some { s with coros := (s.coros.erase (.awaitProvider k)) ++ [.etin k]
                    taskProviderLive := false }
    | t :: rest =>
      some (sptSync { s with coros := (s.coros.erase (.awaitProvider k)) ++ [.etin k]
                             supply := rest
                             pendingTasks := s.pendingTasks ++ [RTask.mk s.nextTid t.segs t.fails]
                             nextTid := s.nextTid + 1 })
  else none

/-- A worker at a `queuedActions.shift()` of `getNextAction` (line 91
or 99).  A dequeued action is pushed onto `runningActions` (line 93 or
101) and handed to the worker's runner (line 69).  On an empty queue,
if tasks are running the worker waits on the notify gate (lines 97-98;
faithfully to the missing `return` of line 40, the installing call gets
`undefined` and stays runnable); if no task is running the terminal
branch fires `this._finishedResolve()` (line 107), `getNextAction`
reports permanent exhaustion and the worker's pull loop stops. -/
def shiftStep (s : St) : Option St :=
  if Coro.tryShift ∈ s.coros then
    match s.queuedActions with
    | a :: rest =>
      some { s with queuedActions := rest
                    runningActions := s.runningActions ++ [a]
                    servedLog := s.servedLog ++ [a]
                    coros := (s.coros.erase .tryShift) ++ [.awaitRunner a] }
    | [] =>
      if s.runningTasks.length ≠ 0 then
        if s.notifyPending then
          some { s with coros := (s.coros.erase .tryShift) ++ [.notifyBlocked] }
        else some { s with notifyPending := true }
      else some { s with finished := true, coros := s.coros.erase .tryShift }
  else none

/-- Settlement of `runner(action.a)` inside `distributeAction`
(lines 69-74): on success the wrapper's `callback` resolves the
submitter's handle and `'succeeded'` is returned; on failure the
`.catch` returns `'failed'` without touching the handle.  Either way
the result differs from `'no_more_actions'`, so the worker's pull loop
(lines 186-191) calls `distributeAction` again. -/
def runnerResultStep (s : St) (aid : Nat) (ok : Bool) : Option St :=
  if Coro.awaitRunner aid ∈ s.coros then
    if ok then
      some { s with coros := (s.coros.erase (.awaitRunner aid)) ++ [.etin .worker]
                    runnerLog := s.runnerLog ++ [(aid, true)]
                    resolvedActions := s.resolvedActions ++ [aid] }
    else
      some { s with coros := (s.coros.erase (.awaitRunner aid)) ++ [.etin .worker]
                    runnerLog := s.runnerLog ++ [(aid, false)] }
  else none

/-- Resumption of a parked `startPendingTasks` activation at its
`while` recheck (lines 137-139): re-wait if the ceiling is still
reached, otherwise shift a pending task and start it (lines 140-157). -/
def sptResumeStep (s : St) : Option St :=
  if Coro.spt false ∈ s.coros then
    if s.runningTasks.length ≥ ceiling s then
      if s.notifyPending then
        some { s with coros := (s.coros.erase (.spt false)) ++ [.spt true] }
      else some { s with notifyPending := true }
    else
      match s.pendingTasks with
      | [] => some { s with coros := s.coros.erase (.spt false) }
      | p :: ps =>
        some { s with coros := s.coros.erase (.spt false)
                      pendingTasks := ps
                      runningTasks := s.runningTasks ++ [p.tid]
                      liveBodies := s.liveBodies ++ [p] }
  else none

/-- One synchronous burst of a running task body: it calls
`performAction` (lines 77-85) once per action of its next `segs` entry.
Each call creates a fresh wrapper whose `resolve` becomes the wrapper's
`callback`, pushes it at the tail of `queuedActions` and calls
`notifyAll` (lines 79-83); with at least one push the pending notify
promise (if any) is resolved and cleared, waking all waiters. -/
def bodySubmitStep (s : St) (tid : Nat) : Option St :=
  match s.liveBodies.find? (fun b => b.tid == tid) with
  | some b =>
    match b.segs with
    | n :: rest =>
      if n = 0 then
        some { s with liveBodies := updateBody tid rest s.liveBodies
                      queuedActions := s.queuedActions ++ List.range' s.nextAid n
                      submittedLog := s.submittedLog ++ List.range' s.nextAid n
                      nextAid := s.nextAid + n }
      else
        some { s with liveBodies := updateBody tid rest s.liveBodies
                      queuedActions := s.queuedActions ++ List.range' s.nextAid n
                      submittedLog := s.submittedLog ++ List.range' s.nextAid n
                      nextAid := s.nextAid + n
                      notifyPending := false
                      coros := if s.notifyPending then s.coros.map wakeCoro else s.coros }
    | [] => none
  | none => none

/-- Settlement of a started task body, i.e. the `.then`/`.catch`
handler of lines 144-156, one synchronous segment: on rejection the
task is pushed onto `failedTasks` (line 151); either way the task is
spliced out of `runningTasks` (first occurrence, by identity),
`notifyAll` runs, and `enqueueTasksIfNeeded()` is called without await,
spawning a fire-and-forget activation at its loop check. -/
def bodyCompleteStep (s : St) (tid : Nat) : Option St :=
  match s.liveBodies.find? (fun b => b.tid == tid) with
  | some b =>
    if b.segs = [] then
      some { s with liveBodies := removeBody tid s.liveBodies
                    runningTasks := s.runningTasks.erase tid
                    failedTasks := if b.fails then s.failedTasks ++ [tid] else s.failedTasks
                    bodyLog := s.bodyLog ++ [(tid, !b.fails)]
                    notifyPending := false
                    coros := (if s.notifyPending then s.coros.map wakeCoro else s.coros)
                             ++ [.etin .standalone] }
    else none
  | none => none

/-- Transition labels: which unit takes its next atomic step, plus the
choices made by external collaborators (when a worker registers, when a
body submits or settles, whether a runner succeeds). -/
inductive Lab
  | register
  | etin (k : EtinKind)
  | providerReturn (k : EtinKind)
  | tryShift
  | runnerDone (aid : Nat) (ok : Bool)
  | sptResume
  | bodySubmit (tid : Nat)
  | bodyComplete (tid : Nat)
deriving DecidableEq

/-- One atomic step of the interleaved execution. -/
def step (s : St) : Lab → Option St
  | .register => some (registerWorkerStep s)
  | .etin k => etinStep s k
  | .providerReturn k => providerReturnStep s k
  | .tryShift => shiftStep s
  | .runnerDone aid ok => runnerResultStep s aid ok
  | .sptResume => sptResumeStep s
  | .bodySubmit tid => bodySubmitStep s tid
  | .bodyComplete tid => bodyCompleteStep s tid

/-- Execute a schedule of steps. -/
def run (s : St) : List Lab → Option St
  | [] => some s
  | l :: ls =>
    match step s l with
    | none => none
    | some s' => run s' ls

/-- State of a freshly constructed `Operation` (lines 43-50): no
workers, nothing queued, provider non-null. -/
def mkInit (maxConcurrentTasks : Option Nat) (supply : List TaskSpec) : St :=
  { supply := supply
    taskProviderLive := true
    maxConcurrentTasks := maxConcurrentTasks
    workers := 0
    nextTid := 0
    nextAid := 0
    pendingTasks := []
    runningTasks := []
    failedTasks := []
    liveBodies := []
    queuedActions := []
    runningActions := []
    notifyPending := false
    finished := false
    coros := []
    queries := 0
    submittedLog := []
    servedLog := []
    runnerLog := []
    resolvedActions := []
    rejectedActions := []
    bodyLog := [] }

/-- Number of steps of a schedule at which the handle returned by
`waitUntilFinished` completes (transitions of `finished` from false to
true). -/
def flipCount (s : St) : List Lab → Nat
  | [] => 0
  | l :: ls =>
    match step s l with
    | none => 0
    | some s' => (if s.finished = false ∧ s'.finished = true then 1 else 0) + flipCount s' ls

/-- What a call to `waitForNotify` (lines 38-41) hands back to the
`await` at its call site. -/
inductive WaitRet
  | pendingHandle
  | undef
deriving DecidableEq

/-- The single-slot notification primitive's state: whether
`this._notifyPromise` is non-null. -/
structure NotifySlot where
  pending : Bool
deriving DecidableEq

/-- Source lines 38-41, verbatim: if `_notifyPromise` is non-null it is
returned; otherwise a fresh promise is installed but the function falls
through without a `return`, so the caller receives `undefined`. -/
def waitForNotify (s : NotifySlot) : NotifySlot × WaitRet :=
  if s.pending then (s, .pendingHandle) else ({ pending := true }, .undef)

/-- Source lines 30-36: resolve and clear the pending promise if there
is one, otherwise do nothing; the returned flag reports whether a
pending signal was completed. -/
def notifyAll (s : NotifySlot) : NotifySlot × Bool :=
  if s.pending then ({ pending := false }, true) else (s, false)

/-- Queue-accounting invariant: the submission log is the served log
(dequeue order) followed by the still-queued actions — i.e. actions
leave `queuedActions` exactly in submission order. -/
structure QueueInv (s : St) : Prop where
  fifo : s.submittedLog = s.servedLog ++ s.queuedActions

/-- Action-identity invariant: every wrapper identity in the queue, in
flight with a runner, or already settled, was allocated below
`nextAid`; the three zones are internally duplicate-free and pairwise
disjoint (a wrapper object lives in exactly one place); the resolved
handles are exactly the successful runner settlements; and the
`reject` bound by `performAction` is never invoked. -/
structure ActInv (s : St) : Prop where
  qBound : ∀ a ∈ s.queuedActions, a < s.nextAid
  iBound : ∀ a ∈ inflightL s.coros, a < s.nextAid
  lBound : ∀ p ∈ s.runnerLog, p.1 < s.nextAid
  qNodup : s.queuedActions.Nodup
  iNodup : (inflightL s.coros).Nodup
  lNodup : (s.runnerLog.map Prod.fst).Nodup
  qi : ∀ a ∈ s.queuedActions, a ∉ inflightL s.coros
  ql : ∀ a ∈ s.queuedActions, a ∉ s.runnerLog.map Prod.fst
  il : ∀ a ∈ inflightL s.coros, a ∉ s.runnerLog.map Prod.fst
  res : s.resolvedActions = (s.runnerLog.filter (fun p => p.2)).map Prod.fst
  rej : s.rejectedActions = []

/-- Task-identity invariant: `runningTasks` lists exactly the tasks
whose bodies are live, in start order; pending, live and settled task
identities are fresh, duplicate-free and pairwise disjoint; and
`failedTasks` is exactly the list of settled bodies that rejected, in
settlement order. -/
structure TaskInv (s : St) : Prop where
  run_eq : s.runningTasks = s.liveBodies.map RTask.tid
  pBound : ∀ t ∈ s.pendingTasks.map RTask.tid, t < s.nextTid
  bBound : ∀ t ∈ s.liveBodies.map RTask.tid, t < s.nextTid
  gBound : ∀ p ∈ s.bodyLog, p.1 < s.nextTid
  pNodup : (s.pendingTasks.map RTask.tid).Nodup
  bNodup : (s.liveBodies.map RTask.tid).Nodup
  gNodup : (s.bodyLog.map Prod.fst).Nodup
  pb : ∀ t ∈ s.pendingTasks.map RTask.tid, t ∉ s.liveBodies.map RTask.tid
  pg : ∀ t ∈ s.pendingTasks.map RTask.tid, t ∉ s.bodyLog.map Prod.fst
  bg : ∀ t ∈ s.liveBodies.map RTask.tid, t ∉ s.bodyLog.map Prod.fst
  failed : s.failedTasks = (s.bodyLog.filter (fun p => !p.2)).map Prod.fst

/-- Ceiling invariant: the running-task count never exceeds the
effective concurrency ceiling of the current instant. -/
def CeilInv (s : St) : Prop := s.runningTasks.length ≤ ceiling s

/-- Failing input for the completion claim: an `Operation` constructed
with explicit `maxConcurrentTasks = 0`, a supply holding one task, and
one registered worker. -/
def zeroCeilInit : St := mkInit (some 0) [⟨[1], false⟩]

/-- Schedule of the failing input: register the worker; its
`enqueueTasksIfNeeded` loop breaks at once (running count 0 is not
below the ceiling 0); its `queuedActions.shift()` finds nothing and no
task is running, so `_finishedResolve()` fires — with the provider
never invoked. -/
def zeroCeilLabs : List Lab := [.register, .etin .worker, .tryShift]

/-- The state reached by the failing input. -/
def zeroCeilFinal : St := (run zeroCeilInit zeroCeilLabs).getD zeroCeilInit

/-- Demonstration run used by several witnesses: one worker, one task
that submits a single action (executed successfully) and then
completes; the run drains completely and the operation finishes. -/
def demoInit : St := mkInit none [⟨[1], false⟩]

/-- Schedule of the demonstration run. -/
def demoLabs : List Lab :=
  [.register, .etin .worker, .providerReturn .worker, .bodySubmit 0,
   .etin .worker, .tryShift, .runnerDone 0 true, .bodyComplete 0,
   .etin .worker, .providerReturn .worker, .etin .standalone,
   .etin .worker, .tryShift]

/-- The state reached by the demonstration run. -/
def demoFinal : St := (run demoInit demoLabs).getD demoInit

/-- Run in which the single submitted action's runner fails: the
distribution loop is told `'failed'` and the submitter's handle is
never settled. -/
def failRunnerLabs : List Lab :=
  [.register, .etin .worker, .providerReturn .worker, .bodySubmit 0,
   .etin .worker, .tryShift, .runnerDone 0 false]

/-- The state reached by the failed-runner run. -/
def failRunnerFinal : St := (run demoInit failRunnerLabs).getD demoInit

/-- Run in which the single submitted action's runner succeeds; used to
exhibit that `runningActions` still holds the action afterwards. -/
def okRunnerLabs : List Lab :=
  [.register, .etin .worker, .providerReturn .worker, .bodySubmit 0,
   .etin .worker, .tryShift, .runnerDone 0 true]

/-- The state reached by the successful-runner run. -/
def okRunnerFinal : St := (run demoInit okRunnerLabs).getD demoInit

/-- The demonstration run just before the worker's
`queuedActions.shift()`: one action is queued and the worker is at the
shift. -/
def preShiftState : St :=
  (run demoInit [.register, .etin .worker, .providerReturn .worker,
    .bodySubmit 0, .etin .worker]).getD demoInit

/-- The state right after that dequeue. -/
def postShiftState : St := (step preShiftState .tryShift).getD preShiftState

/-- The demonstration run just before the worker's
`enqueueTasksIfNeeded` loop invokes the provider. -/
def queryPreState : St := (run demoInit [.register]).getD demoInit

/-- The state right after that provider invocation. -/
def queryPostState : St :=
  (step queryPreState (.etin .worker)).getD queryPreState

/-- The finished demonstration state extended by one more step; the
provider has already signaled exhaustion there. -/
def postDemoState : St := (step demoFinal .register).getD demoFinal

/-- Run of a single task that submits nothing and whose body rejects. -/
def failTaskInit : St := mkInit none [⟨[], true⟩]

/-- Schedule of the failing-task run. -/
def failTaskLabs : List Lab :=
  [.register, .etin .worker, .providerReturn .worker, .bodyComplete 0]

/-- The state reached by the failing-task run. -/
def failTaskFinal : St := (run failTaskInit failTaskLabs).getD failTaskInit

/-! ### Basic lemmas about the auxiliary list operations -/

theorem coroAid_wakeCoro (c : Coro) : coroAid (wakeCoro c) = coroAid c := by
  cases c with
  | etin k => rfl
  | awaitProvider k => rfl
  | tryShift => rfl
  | notifyBlocked => rfl
  | awaitRunner a => rfl
  | spt b => cases b <;> rfl

theorem coroAid_eq_some {c : Coro} {a : Nat} (h : coroAid c = some a) :
    c = .awaitRunner a := by
  cases c <;> simp_all [coroAid]

theorem inflightL_append (cs ds : List Coro) :
    inflightL (cs ++ ds) = inflightL cs ++ inflightL ds := by
  simp [inflightL, List.filterMap_append]

theorem inflightL_map_wake (cs : List Coro) :
    inflightL (cs.map wakeCoro) = inflightL cs := by
  induction cs with
  | nil => rfl
  | cons c cs ih =>
    simp only [List.map_cons, inflightL, List.filterMap_cons, coroAid_wakeCoro] at *
    cases coroAid c <;> simp [ih]

theorem inflightL_erase_of_none {c : Coro} (hc : coroAid c = none) (cs : List Coro) :
    inflightL (cs.erase c) = inflightL cs := by
  induction cs with
  | nil => rfl
  | cons d cs ih =>
    rw [List.erase_cons]
    by_cases hdc : d = c
    · subst hdc
      simp [inflightL, List.filterMap_cons, hc]
    · rw [if_neg (by simp [hdc])]
      simp only [inflightL, List.filterMap_cons] at *
      cases coroAid d <;> simp [ih]

theorem inflightL_erase_runner (aid : Nat) (cs : List Coro) :
    inflightL (cs.erase (.awaitRunner aid)) = (inflightL cs).erase aid := by
  induction cs with
  | nil => rfl
  | cons d cs ih =>
    rw [List.erase_cons]
    by_cases hdc : d = Coro.awaitRunner aid
    · subst hdc
      simp [inflightL, List.filterMap_cons, coroAid, List.erase_cons]
    · rw [if_neg (by simp [hdc])]
      simp only [inflightL, List.filterMap_cons] at *
      cases hda : coroAid d with
      | none => simp [ih]
      | some b =>
        have hb : b ≠ aid := by
          intro hba
          exact hdc (hba ▸ coroAid_eq_some hda)
        simp [List.erase_cons, hb, ih]

theorem mem_inflightL {aid : Nat} {cs : List Coro} (h : Coro.awaitRunner aid ∈ cs) :
    aid ∈ inflightL cs :=
  List.mem_filterMap.mpr ⟨_, h, rfl⟩

theorem updateBody_map_tid (tid : Nat) (rest : List Nat) (bs : List RTask) :
    (updateBody tid rest bs).map RTask.tid = bs.map RTask.tid := by
  induction bs with
  | nil => rfl
  | cons b bs ih =>
    simp only [updateBody]
    by_cases h : b.tid = tid
    · simp [h]
    · simp [h, ih]

theorem removeBody_map_tid (tid : Nat) (bs : List RTask) :
    (removeBody tid bs).map RTask.tid = (bs.map RTask.tid).erase tid := by
  induction bs with
  | nil => rfl
  | cons b bs ih =>
    simp only [removeBody, List.map_cons, List.erase_cons]
    by_cases h : b.tid = tid
    · simp [h]
    · simp [h, ih]

/-! ### Characterization of each transition -/

theorem etinStep_eq {s s' : St} {k : EtinKind} (h : etinStep s k = some s') :
    Coro.etin k ∈ s.coros ∧
    ((s.queuedActions = [] ∧ s.taskProviderLive = true ∧
        s.runningTasks.length ≥ ceiling s ∧ s' = etinExit s k) ∨
     (s.queuedActions = [] ∧ s.taskProviderLive = true ∧
        s.runningTasks.length < ceiling s ∧
        s' = { s with queries := s.queries + 1
                      coros := (s.coros.erase (.etin k)) ++ [.awaitProvider k] }) ∨
     (¬(s.queuedActions = [] ∧ s.taskProviderLive = true) ∧ s' = etinExit s k)) := by
  unfold etinStep at h
  by_cases hmem : Coro.etin k ∈ s.coros
  · rw [if_pos hmem] at h
    refine ⟨hmem, ?_⟩
    by_cases hg : s.queuedActions = [] ∧ s.taskProviderLive = true
    · rw [if_pos hg] at h
      by_cases hc : s.runningTasks.length ≥ ceiling s
      · rw [if_pos hc] at h
        exact Or.inl ⟨hg.1, hg.2, hc, (Option.some.inj h).symm⟩
      · rw [if_neg hc] at h
        exact Or.inr (Or.inl ⟨hg.1, hg.2, Nat.lt_of_not_le hc, (Option.some.inj h).symm⟩)
    · rw [if_neg hg] at h
      exact Or.inr (Or.inr ⟨hg, (Option.some.inj h).symm⟩)
  · rw [if_neg hmem] at h
    exact Option.noConfusion h

theorem providerReturnStep_eq {s s' : St} {k : EtinKind}
    (h : providerReturnStep s k = some s') :
    Coro.awaitProvider k ∈ s.coros ∧
    ((s.supply = [] ∧
        s' = { s with coros := (s.coros.erase (.awaitProvider k)) ++ [.etin k]
                      taskProviderLive := false }) ∨
     (∃ t rest, s.supply = t :: rest ∧
        s' = sptSync { s with coros := (s.coros.erase (.awaitProvider k)) ++ [.etin k]
                              supply := rest
                              pendingTasks :=
                                s.pendingTasks ++ [RTask.mk s.nextTid t.segs t.fails]
                              nextTid := s.nextTid + 1 })) := by
  unfold providerReturnStep at h
  by_cases hmem : Coro.awaitProvider k ∈ s.coros
  · rw [if_pos hmem] at h
    refine ⟨hmem, ?_⟩
    cases hsup : s.supply with
    | nil =>
      rw [hsup] at h
      exact Or.inl ⟨rfl, (Option.some.inj h).symm⟩
    | cons t rest =>
      rw [hsup] at h
      exact Or.inr ⟨t, rest, rfl, (Option.some.inj h).symm⟩
  · rw [if_neg hmem] at h
    exact Option.noConfusion h

theorem shiftStep_eq {s s' : St} (h : shiftStep s = some s') :
    Coro.tryShift ∈ s.coros ∧
    ((∃ a rest, s.queuedActions = a :: rest ∧
        s' = { s with queuedActions := rest
                      runningActions := s.runningActions ++ [a]
                      servedLog := s.servedLog ++ [a]
                      coros := (s.coros.erase .tryShift) ++ [.awaitRunner a] }) ∨
     (s.queuedActions = [] ∧ s.runningTasks.length ≠ 0 ∧ s.notifyPending = true ∧
        s' = { s with coros := (s.coros.erase .tryShift) ++ [.notifyBlocked] }) ∨
     (s.queuedActions = [] ∧ s.runningTasks.length ≠ 0 ∧ s.notifyPending = false ∧
        s' = { s with notifyPending := true }) ∨
     (s.queuedActions = [] ∧ s.runningTasks.length = 0 ∧
        s' = { s with finished := true, coros := s.coros.erase .tryShift })) := by
  unfold shiftStep at h
  by_cases hmem : Coro.tryShift ∈ s.coros
  · rw [if_pos hmem] at h
    refine ⟨hmem, ?_⟩
    cases hq : s.queuedActions with
    | cons a rest =>
      rw [hq] at h
      exact Or.inl ⟨a, rest, rfl, (Option.some.inj h).symm⟩
    | nil =>
      rw [hq] at h
      by_cases hr : s.runningTasks.length ≠ 0
      · rw [if_pos hr] at h
        by_cases hn : s.notifyPending
        · rw [if_pos hn] at h
          exact Or.inr (Or.inl ⟨rfl, hr, hn, (Option.some.inj h).symm⟩)
        · rw [if_neg hn] at h
          exact Or.inr (Or.inr (Or.inl
            ⟨rfl, hr, Bool.eq_false_iff.mpr hn, (Option.some.inj h).symm⟩))
      · rw [if_neg hr] at h
        exact Or.inr (Or.inr (Or.inr
          ⟨rfl, Nat.eq_zero_of_not_pos (by omega), (Option.some.inj h).symm⟩))
  · rw [if_neg hmem] at h
    exact Option.noConfusion h

theorem runnerResultStep_eq {s s' : St} {aid : Nat} {ok : Bool}
    (h : runnerResultStep s aid ok = some s') :
    Coro.awaitRunner aid ∈ s.coros ∧
    ((ok = true ∧
        s' = { s with coros := (s.coros.erase (.awaitRunner aid)) ++ [.etin .worker]
                      runnerLog := s.runnerLog ++ [(aid, true)]
                      resolvedActions := s.resolvedActions ++ [aid] }) ∨
     (ok = false ∧
        s' = { s with coros := (s.coros.erase (.awaitRunner aid)) ++ [.etin .worker]
                      runnerLog := s.runnerLog ++ [(aid, false)] })) := by
  unfold runnerResultStep at h
  by_cases hmem : Coro.awaitRunner aid ∈ s.coros
  · rw [if_pos hmem] at h
    refine ⟨hmem, ?_⟩
    cases ok with
    | true => exact Or.inl ⟨rfl, (Option.some.inj (by simpa using h)).symm⟩
    | false => exact Or.inr ⟨rfl, (Option.some.inj (by simpa using h)).symm⟩
  · rw [if_neg hmem] at h
    exact Option.noConfusion h

theorem sptResumeStep_eq {s s' : St} (h : sptResumeStep s = some s') :
    Coro.spt false ∈ s.coros ∧
    ((s.runningTasks.length ≥ ceiling s ∧ s.notifyPending = true ∧
        s' = { s with coros := (s.coros.erase (.spt false)) ++ [.spt true] }) ∨
     (s.runningTasks.length ≥ ceiling s ∧ s.notifyPending = false ∧
        s' = { s with notifyPending := true }) ∨
     (s.runningTasks.length < ceiling s ∧ s.pendingTasks = [] ∧
        s' = { s with coros := s.coros.erase (.spt false) }) ∨
     (∃ p ps, s.runningTasks.length < ceiling s ∧ s.pendingTasks = p :: ps ∧
        s' = { s with coros := s.coros.erase (.spt false)
                      pendingTasks := ps
                      runningTasks := s.runningTasks ++ [p.tid]
                      liveBodies := s.liveBodies ++ [p] })) := by
  unfold sptResumeStep at h
  by_cases hmem : Coro.spt false ∈ s.coros
  · rw [if_pos hmem] at h
    refine ⟨hmem, ?_⟩
    by_cases hc : s.runningTasks.length ≥ ceiling s
    · rw [if_pos hc] at h
      by_cases hn : s.notifyPending
      · rw [if_pos hn] at h
        exact Or.inl ⟨hc, hn, (Option.some.inj h).symm⟩
      · rw [if_neg hn] at h
        exact Or.inr (Or.inl ⟨hc, Bool.eq_false_iff.mpr hn, (Option.some.inj h).symm⟩)
    · rw [if_neg hc] at h
      cases hp : s.pendingTasks with
      | nil =>
        rw [hp] at h
        exact Or.inr (Or.inr (Or.inl
          ⟨Nat.lt_of_not_le hc, rfl, (Option.some.inj h).symm⟩))
      | cons p ps =>
        rw [hp] at h
        exact Or.inr (Or.inr (Or.inr
          ⟨p, ps, Nat.lt_of_not_le hc, rfl, (Option.some.inj h).symm⟩))
  · rw [if_neg hmem] at h
    exact Option.noConfusion h

theorem bodySubmitStep_eq {s s' : St} {tid : Nat} (h : bodySubmitStep s tid = some s') :
    ∃ b n rest, s.liveBodies.find? (fun b => b.tid == tid) = some b ∧
      b.segs = n :: rest ∧
      ((n = 0 ∧
          s' = { s with liveBodies := updateBody tid rest s.liveBodies
                        queuedActions := s.queuedActions ++ List.range' s.nextAid n
                        submittedLog := s.submittedLog ++ List.range' s.nextAid n
                        nextAid := s.nextAid + n }) ∨
       (n ≠ 0 ∧
          s' = { s with liveBodies := updateBody tid rest s.liveBodies
                        queuedActions := s.queuedActions ++ List.range' s.nextAid n
                        submittedLog := s.submittedLog ++ List.range' s.nextAid n
                        nextAid := s.nextAid + n
                        notifyPending := false
                        coros := if s.notifyPending then s.coros.map wakeCoro
                                 else s.coros })) := by
  unfold bodySubmitStep at h
  cases hf : s.liveBodies.find? (fun b => b.tid == tid) with
  | none => rw [hf] at h; exact Option.noConfusion h
  | some b =>
    simp only [hf] at h
    cases hsegs : b.segs with
    | nil => simp only [hsegs] at h; exact Option.noConfusion h
    | cons n rest =>
      simp only [hsegs] at h
      refine ⟨b, n, rest, rfl, hsegs, ?_⟩
      by_cases hn : n = 0
      · rw [if_pos hn] at h
        exact Or.inl ⟨hn, (Option.some.inj h).symm⟩
      · rw [if_neg hn] at h
        exact Or.inr ⟨hn, (Option.some.inj h).symm⟩

theorem bodyCompleteStep_eq {s s' : St} {tid : Nat}
    (h : bodyCompleteStep s tid = some s') :
    ∃ b, s.liveBodies.find? (fun b => b.tid == tid) = some b ∧ b.segs = [] ∧
      s' = { s with liveBodies := removeBody tid s.liveBodies
                    runningTasks := s.runningTasks.erase tid
                    failedTasks := if b.fails then s.failedTasks ++ [tid]
                                   else s.failedTasks
                    bodyLog := s.bodyLog ++ [(tid, !b.fails)]
                    notifyPending := false
                    coros := (if s.notifyPending then s.coros.map wakeCoro
                              else s.coros) ++ [.etin .standalone] } := by
  unfold bodyCompleteStep at h
  cases hf : s.liveBodies.find? (fun b => b.tid == tid) with
  | none => rw [hf] at h; exact Option.noConfusion h
  | some b =>
    simp only [hf] at h
    by_cases hsegs : b.segs = []
    · rw [if_pos hsegs] at h
      exact ⟨b, rfl, hsegs, (Option.some.inj h).symm⟩
    · rw [if_neg hsegs] at h
      exact Option.noConfusion h

/-! ### Invariant transport along a transition, by transition shape -/

theorem queueInv_congr {s t : St} (h : QueueInv s)
    (h1 : t.submittedLog = s.submittedLog) (h2 : t.servedLog = s.servedLog)
    (h3 : t.queuedActions = s.queuedActions) : QueueInv t :=
  ⟨by rw [h1, h2, h3]; exact h.fifo⟩

theorem actInv_congr {s t : St} (h : ActInv s)
    (hq : t.queuedActions = s.queuedActions)
    (hi : inflightL t.coros = inflightL s.coros)
    (hl : t.runnerLog = s.runnerLog)
    (hr : t.resolvedActions = s.resolvedActions)
    (hj : t.rejectedActions = s.rejectedActions)
    (hn : t.nextAid = s.nextAid) : ActInv t := by
  constructor
  · rw [hq, hn]; exact h.qBound
  · rw [hi, hn]; exact h.iBound
  · rw [hl, hn]; exact h.lBound
  · rw [hq]; exact h.qNodup
  · rw [hi]; exact h.iNodup
  · rw [hl]; exact h.lNodup
  · rw [hq, hi]; exact h.qi
  · rw [hq, hl]; exact h.ql
  · rw [hi, hl]; exact h.il
  · rw [hr, hl]; exact h.res
  · rw [hj]; exact h.rej

theorem taskInv_congr {s t : St} (h : TaskInv s)
    (hr : t.runningTasks = s.runningTasks)
    (hp : t.pendingTasks = s.pendingTasks)
    (hb : t.liveBodies = s.liveBodies)
    (hg : t.bodyLog = s.bodyLog)
    (hf : t.failedTasks = s.failedTasks)
    (hn : t.nextTid = s.nextTid) : TaskInv t := by
  constructor
  · rw [hr, hb]; exact h.run_eq
  · rw [hp, hn]; exact h.pBound
  · rw [hb, hn]; exact h.bBound
  · rw [hg, hn]; exact h.gBound
  · rw [hp]; exact h.pNodup
  · rw [hb]; exact h.bNodup
  · rw [hg]; exact h.gNodup
  · rw [hp, hb]; exact h.pb
  · rw [hp, hg]; exact h.pg
  · rw [hb, hg]; exact h.bg
  · rw [hf, hg]; exact h.failed

theorem actInv_dequeue {s t : St} (hs : ActInv s) {a : Nat} {rest : List Nat}
    (hq : s.queuedActions = a :: rest)
    (htq : t.queuedActions = rest)
    (hti : inflightL t.coros = inflightL s.coros ++ [a])
    (htl : t.runnerLog = s.runnerLog)
    (htr : t.resolvedActions = s.resolvedActions)
    (htj : t.rejectedActions = s.rejectedActions)
    (htn : t.nextAid = s.nextAid) : ActInv t := by
  have hmem_a : a ∈ s.queuedActions := by
    rw [hq]; exact List.mem_cons_self _ _
  have hrest : ∀ x ∈ rest, x ∈ s.queuedActions := fun x hx => by
    rw [hq]; exact List.mem_cons_of_mem _ hx
  have hanotin : a ∉ rest := by
    have h2 := hs.qNodup
    rw [hq] at h2
    exact (List.nodup_cons.mp h2).1
  constructor
  · rw [htq, htn]
    exact fun x hx => hs.qBound x (hrest x hx)
  · rw [hti, htn]
    intro x hx
    rcases List.mem_append.mp hx with h1 | h1
    · exact hs.iBound x h1
    · have hxa : x = a := by simpa using h1
      subst hxa
      exact hs.qBound x hmem_a
  · rw [htl, htn]
    exact hs.lBound
  · rw [htq]
    have h2 := hs.qNodup
    rw [hq] at h2
    exact h2.of_cons
  · rw [hti]
    refine List.nodup_append.mpr ⟨hs.iNodup, List.nodup_singleton a, ?_⟩
    intro x hx hx2
    have hxa : x = a := by simpa using hx2
    subst hxa
    exact hs.qi x hmem_a hx
  · rw [htl]
    exact hs.lNodup
  · rw [htq, hti]
    intro x hx hximem
    rcases List.mem_append.mp hximem with h1 | h1
    · exact hs.qi x (hrest x hx) h1
    · have hxa : x = a := by simpa using h1
      subst hxa
      exact hanotin hx
  · rw [htq, htl]
    exact fun x hx => hs.ql x (hrest x hx)
  · rw [hti, htl]
    intro x hx
    rcases List.mem_append.mp hx with h1 | h1
    · exact hs.il x h1
    · have hxa : x = a := by simpa using h1
      subst hxa
      exact hs.ql x hmem_a
  · rw [htr, htl]
    exact hs.res
  · rw [htj]
    exact hs.rej

theorem actInv_runnerDone {s t : St} (hs : ActInv s) {aid : Nat} {ok : Bool}
    (hmem : aid ∈ inflightL s.coros)
    (hti : inflightL t.coros = (inflightL s.coros).erase aid)
    (htq : t.queuedActions = s.queuedActions)
    (htl : t.runnerLog = s.runnerLog ++ [(aid, ok)])
    (htr : t.resolvedActions =
      if ok then s.resolvedActions ++ [aid] else s.resolvedActions)
    (htj : t.rejectedActions = s.rejectedActions)
    (htn : t.nextAid = s.nextAid) : ActInv t := by
  have herasesub : ∀ x ∈ (inflightL s.coros).erase aid, x ∈ inflightL s.coros :=
    fun x hx => List.mem_of_mem_erase hx
  constructor
  · rw [htq, htn]; exact hs.qBound
  · rw [hti, htn]
    exact fun x hx => hs.iBound x (herasesub x hx)
  · rw [htl, htn]
    intro p hp
    rcases List.mem_append.mp hp with h1 | h1
    · exact hs.lBound p h1
    · have hpa : p = (aid, ok) := by simpa using h1
      subst hpa
      exact hs.iBound aid hmem
  · rw [htq]; exact hs.qNodup
  · rw [hti]
    exact List.Nodup.sublist (List.erase_sublist _ _) hs.iNodup
  · rw [htl, List.map_append]
    refine List.nodup_append.mpr ⟨hs.lNodup, by simp, ?_⟩
    intro x hx hx2
    have hxa : x = aid := by simpa using hx2
    subst hxa
    exact hs.il x hmem hx
  · rw [htq, hti]
    exact fun x hx hxe => hs.qi x hx (herasesub x hxe)
  · rw [htq, htl, List.map_append]
    intro x hx hxl
    rcases List.mem_append.mp hxl with h1 | h1
    · exact hs.ql x hx h1
    · have hxa : x = aid := by simpa using h1
      subst hxa
      exact hs.qi x hx hmem
  · rw [hti, htl, List.map_append]
    intro x hx
    obtain ⟨hxne, hxmem⟩ := hs.iNodup.mem_erase_iff.mp hx
    intro hxl
    rcases List.mem_append.mp hxl with h1 | h1
    · exact hs.il x hxmem h1
    · exact hxne (by simpa using h1)
  · rw [htr, htl, List.filter_append, List.map_append, hs.res]
    cases ok <;> simp
  · rw [htj]; exact hs.rej

theorem actInv_submit {s t : St} (hs : ActInv s) {n : Nat}
    (htq : t.queuedActions = s.queuedActions ++ List.range' s.nextAid n)
    (hti : inflightL t.coros = inflightL s.coros)
    (htl : t.runnerLog = s.runnerLog)
    (htr : t.resolvedActions = s.resolvedActions)
    (htj : t.rejectedActions = s.rejectedActions)
    (htn : t.nextAid = s.nextAid + n) : ActInv t := by
  have hnew : ∀ x ∈ List.range' s.nextAid n, s.nextAid ≤ x ∧ x < s.nextAid + n :=
    fun x hx => List.mem_range'_1.mp hx
  constructor
  · rw [htq, htn]
    intro x hx
    rcases List.mem_append.mp hx with h1 | h1
    · exact Nat.lt_of_lt_of_le (hs.qBound x h1) (Nat.le_add_right _ _)
    · exact (hnew x h1).2
  · rw [hti, htn]
    exact fun x hx => Nat.lt_of_lt_of_le (hs.iBound x hx) (Nat.le_add_right _ _)
  · rw [htl, htn]
    exact fun p hp => Nat.lt_of_lt_of_le (hs.lBound p hp) (Nat.le_add_right _ _)
  · rw [htq]
    refine List.nodup_append.mpr ⟨hs.qNodup, List.nodup_range' _ _, ?_⟩
    intro x hx1 hx2
    exact absurd (hs.qBound x hx1) (Nat.not_lt.mpr (hnew x hx2).1)
  · rw [hti]; exact hs.iNodup
  · rw [htl]; exact hs.lNodup
  · rw [htq, hti]
    intro x hx
    rcases List.mem_append.mp hx with h1 | h1
    · exact hs.qi x h1
    · intro hxi
      exact absurd (hs.iBound x hxi) (Nat.not_lt.mpr (hnew x h1).1)
  · rw [htq, htl]
    intro x hx
    rcases List.mem_append.mp hx with h1 | h1
    · exact hs.ql x h1
    · intro hxl
      rcases List.mem_map.mp hxl with ⟨p, hp, hpeq⟩
      exact absurd (hpeq ▸ hs.lBound p hp) (Nat.not_lt.mpr (hnew x h1).1)
  · rw [hti, htl]; exact hs.il
  · rw [htr, htl]; exact hs.res
  · rw [htj]; exact hs.rej

theorem taskInv_newPending {s t : St} (hs : TaskInv s) {p : RTask}
    (hptid : p.tid = s.nextTid)
    (htp : t.pendingTasks = s.pendingTasks ++ [p])
    (htr : t.runningTasks = s.runningTasks)
    (htb : t.liveBodies = s.liveBodies)
    (htg : t.bodyLog = s.bodyLog)
    (htf : t.failedTasks = s.failedTasks)
    (htn : t.nextTid = s.nextTid + 1) : TaskInv t := by
  constructor
  · rw [htr, htb]; exact hs.run_eq
  · rw [htp, htn, List.map_append]
    intro x hx
    rcases List.mem_append.mp hx with h1 | h1
    · exact Nat.lt_succ_of_lt (hs.pBound x h1)
    · have hxp : x = p.tid := by simpa using h1
      rw [hxp, hptid]
      exact Nat.lt_succ_self _
  · rw [htb, htn]
    exact fun x hx => Nat.lt_succ_of_lt (hs.bBound x hx)
  · rw [htg, htn]
    exact fun q hq => Nat.lt_succ_of_lt (hs.gBound q hq)
  · rw [htp, List.map_append]
    refine List.nodup_append.mpr ⟨hs.pNodup, by simp, ?_⟩
    intro x hx hx2
    have hxp : x = p.tid := by simpa using hx2
    rw [hxp, hptid] at hx
    exact absurd (hs.pBound _ hx) (Nat.lt_irrefl _)
  · rw [htb]; exact hs.bNodup
  · rw [htg]; exact hs.gNodup
  · rw [htp, htb, List.map_append]
    intro x hx
    rcases List.mem_append.mp hx with h1 | h1
    · exact hs.pb x h1
    · have hxp : x = p.tid := by simpa using h1
      rw [hxp, hptid]
      intro hmem
      exact absurd (hs.bBound _ hmem) (Nat.lt_irrefl _)
  · rw [htp, htg, List.map_append]
    intro x hx
    rcases List.mem_append.mp hx with h1 | h1
    · exact hs.pg x h1
    · have hxp : x = p.tid := by simpa using h1
      rw [hxp, hptid]
      intro hmem
      rcases List.mem_map.mp hmem with ⟨q, hq, hqeq⟩
      exact absurd (hqeq ▸ hs.gBound q hq) (Nat.lt_irrefl _)
  · rw [htb, htg]; exact hs.bg
  · rw [htf, htg]; exact hs.failed

theorem taskInv_start {s t : St} (hs : TaskInv s) {p : RTask} {ps : List RTask}
    (hp : s.pendingTasks = p :: ps)
    (htp : t.pendingTasks = ps)
    (htr : t.runningTasks = s.runningTasks ++ [p.tid])
    (htb : t.liveBodies = s.liveBodies ++ [p])
    (htg : t.bodyLog = s.bodyLog)
    (htf : t.failedTasks = s.failedTasks)
    (htn : t.nextTid = s.nextTid) : TaskInv t := by
  have hheadmem : p.tid ∈ s.pendingTasks.map RTask.tid := by
    rw [hp, List.map_cons]; exact List.mem_cons_self _ _
  have htailmem : ∀ x ∈ ps.map RTask.tid, x ∈ s.pendingTasks.map RTask.tid :=
    fun x hx => by rw [hp, List.map_cons]; exact List.mem_cons_of_mem _ hx
  have hheadnotin : p.tid ∉ ps.map RTask.tid := by
    have h2 := hs.pNodup
    rw [hp, List.map_cons] at h2
    exact (List.nodup_cons.mp h2).1
  constructor
  · rw [htr, htb, List.map_append, hs.run_eq, List.map_cons, List.map_nil]
  · rw [htp, htn]
    exact fun x hx => hs.pBound x (htailmem x hx)
  · rw [htb, htn, List.map_append]
    intro x hx
    rcases List.mem_append.mp hx with h1 | h1
    · exact hs.bBound x h1
    · have hxp : x = p.tid := by simpa using h1
      rw [hxp]
      exact hs.pBound p.tid hheadmem
  · rw [htg, htn]; exact hs.gBound
  · rw [htp]
    have h2 := hs.pNodup
    rw [hp, List.map_cons] at h2
    exact h2.of_cons
  · rw [htb, List.map_append]
    refine List.nodup_append.mpr ⟨hs.bNodup, by simp, ?_⟩
    intro x hx hx2
    have hxp : x = p.tid := by simpa using hx2
    exact hs.pb p.tid hheadmem (hxp ▸ hx)
  · rw [htg]; exact hs.gNodup
  · rw [htp, htb, List.map_append]
    intro x hx hmem
    rcases List.mem_append.mp hmem with h1 | h1
    · exact hs.pb x (htailmem x hx) h1
    · have hxp : x = p.tid := by simpa using h1
      subst hxp
      exact hheadnotin hx
  · rw [htp, htg]
    exact fun x hx => hs.pg x (htailmem x hx)
  · rw [htb, htg, List.map_append]
    intro x hx
    rcases List.mem_append.mp hx with h1 | h1
    · exact hs.bg x h1
    · have hxp : x = p.tid := by simpa using h1
      rw [hxp]
      exact hs.pg p.tid hheadmem
  · rw [htf, htg]; exact hs.failed

theorem taskInv_submit {s t : St} (hs : TaskInv s) {tid : Nat} {rest : List Nat}
    (htb : t.liveBodies = updateBody tid rest s.liveBodies)
    (htr : t.runningTasks = s.runningTasks)
    (htp : t.pendingTasks = s.pendingTasks)
    (htg : t.bodyLog = s.bodyLog)
    (htf : t.failedTasks = s.failedTasks)
    (htn : t.nextTid = s.nextTid) : TaskInv t := by
  have hm : (updateBody tid rest s.liveBodies).map RTask.tid =
      s.liveBodies.map RTask.tid := updateBody_map_tid _ _ _
  constructor
  · rw [htr, htb, hm]; exact hs.run_eq
  · rw [htp, htn]; exact hs.pBound
  · rw [htb, htn, hm]; exact hs.bBound
  · rw [htg, htn]; exact hs.gBound
  · rw [htp]; exact hs.pNodup
  · rw [htb, hm]; exact hs.bNodup
  · rw [htg]; exact hs.gNodup
  · rw [htp, htb, hm]; exact hs.pb
  · rw [htp, htg]; exact hs.pg
  · rw [htb, htg, hm]; exact hs.bg
  · rw [htf, htg]; exact hs.failed

theorem taskInv_complete {s t : St} (hs : TaskInv s) {tid : Nat} {b : RTask}
    (hf : s.liveBodies.find? (fun x => x.tid == tid) = some b)
    (htb : t.liveBodies = removeBody tid s.liveBodies)
    (htr : t.runningTasks = s.runningTasks.erase tid)
    (htg : t.bodyLog = s.bodyLog ++ [(tid, !b.fails)])
    (htf : t.failedTasks = if b.fails then s.failedTasks ++ [tid] else s.failedTasks)
    (htp : t.pendingTasks = s.pendingTasks)
    (htn : t.nextTid = s.nextTid) : TaskInv t := by
  have hbmem : b ∈ s.liveBodies := List.mem_of_find?_eq_some hf
  have hbtid : b.tid = tid := by simpa using List.find?_some hf
  have htidmem : tid ∈ s.liveBodies.map RTask.tid :=
    hbtid ▸ List.mem_map_of_mem _ hbmem
  have hrm : (removeBody tid s.liveBodies).map RTask.tid =
      (s.liveBodies.map RTask.tid).erase tid := removeBody_map_tid _ _
  constructor
  · rw [htr, htb, hrm, hs.run_eq]
  · rw [htp, htn]; exact hs.pBound
  · rw [htb, htn, hrm]
    exact fun x hx => hs.bBound x (List.mem_of_mem_erase hx)
  · rw [htg, htn]
    intro q hq
    rcases List.mem_append.mp hq with h1 | h1
    · exact hs.gBound q h1
    · have hqe : q = (tid, !b.fails) := by simpa using h1
      subst hqe
      exact hs.bBound tid htidmem
  · rw [htp]; exact hs.pNodup
  · rw [htb, hrm]
    exact List.Nodup.sublist (List.erase_sublist _ _) hs.bNodup
  · rw [htg, List.map_append]
    refine List.nodup_append.mpr ⟨hs.gNodup, by simp, ?_⟩
    intro x hx hx2
    have hxt : x = tid := by simpa using hx2
    subst hxt
    exact hs.bg x htidmem hx
  · rw [htp, htb, hrm]
    exact fun x hx hxe => hs.pb x hx (List.mem_of_mem_erase hxe)
  · rw [htp, htg, List.map_append]
    intro x hx hxl
    rcases List.mem_append.mp hxl with h1 | h1
    · exact hs.pg x hx h1
    · have hxt : x = tid := by simpa using h1
      subst hxt
      exact hs.pb x hx htidmem
  · rw [htb, htg, hrm, List.map_append]
    intro x hx
    obtain ⟨hxne, hxmem⟩ := hs.bNodup.mem_erase_iff.mp hx
    intro hxl
    rcases List.mem_append.mp hxl with h1 | h1
    · exact hs.bg x hxmem h1
    · exact hxne (by simpa using h1)
  · rw [htf, htg, List.filter_append, List.map_append, hs.failed]
    cases hbf : b.fails <;> simp

theorem inflightL_append_nonrunner {c : Coro} (hc : coroAid c = none)
    (cs : List Coro) : inflightL (cs ++ [c]) = inflightL cs := by
  rw [inflightL_append]
  simp [inflightL, List.filterMap_cons, hc]

theorem sptSync_cases (s : St) :
    sptSync s = { s with coros := s.coros ++ [.spt true] } ∨
    sptSync s = { s with notifyPending := true, coros := s.coros ++ [.spt false] } ∨
    sptSync s = s ∨
    (∃ p ps, s.pendingTasks = p :: ps ∧ s.runningTasks.length < ceiling s ∧
      sptSync s = { s with pendingTasks := ps
                           runningTasks := s.runningTasks ++ [p.tid]
                           liveBodies := s.liveBodies ++ [p] }) := by
  unfold sptSync
  by_cases hc : s.runningTasks.length ≥ ceiling s
  · rw [if_pos hc]
    by_cases hn : s.notifyPending
    · rw [if_pos hn]
      exact Or.inl rfl
    · rw [if_neg hn]
      exact Or.inr (Or.inl rfl)
  · rw [if_neg hc]
    cases hp : s.pendingTasks with
    | nil => exact Or.inr (Or.inr (Or.inl rfl))
    | cons p ps =>
      exact Or.inr (Or.inr (Or.inr ⟨p, ps, rfl, Nat.lt_of_not_le hc, rfl⟩))

theorem queueInv_sptSync {s : St} (h : QueueInv s) : QueueInv (sptSync s) := by
  rcases sptSync_cases s with hc | hc | hc | ⟨p, ps, hp, hlt, hc⟩ <;> rw [hc] <;>
    exact queueInv_congr h rfl rfl rfl

theorem actInv_sptSync {s : St} (h : ActInv s) : ActInv (sptSync s) := by
  rcases sptSync_cases s with hc | hc | hc | ⟨p, ps, hp, hlt, hc⟩ <;> rw [hc]
  · exact actInv_congr h rfl (@inflightL_append_nonrunner (.spt true) rfl s.coros)
      rfl rfl rfl rfl
  · exact actInv_congr h rfl (@inflightL_append_nonrunner (.spt false) rfl s.coros)
      rfl rfl rfl rfl
  · exact h
  · exact actInv_congr h rfl rfl rfl rfl rfl rfl

theorem taskInv_sptSync {s : St} (h : TaskInv s) : TaskInv (sptSync s) := by
  rcases sptSync_cases s with hc | hc | hc | ⟨p, ps, hp, hlt, hc⟩ <;> rw [hc]
  · exact taskInv_congr h rfl rfl rfl rfl rfl rfl
  · exact taskInv_congr h rfl rfl rfl rfl rfl rfl
  · exact h
  · exact taskInv_start h hp rfl rfl rfl rfl rfl rfl

theorem ceilInv_sptSync {s : St} (h : CeilInv s) : CeilInv (sptSync s) := by
  rcases sptSync_cases s with hc | hc | hc | ⟨p, ps, hp, hlt, hc⟩ <;> rw [hc]
  · exact h
  · exact h
  · exact h
  · show (s.runningTasks ++ [p.tid]).length ≤ ceiling s
    rw [List.length_append]
    simpa using hlt

theorem ceiling_register (s : St) : ceiling s ≤ ceiling (registerWorkerStep s) := by
  show getMaxConcurrentTasks s.maxConcurrentTasks s.workers ≤
    getMaxConcurrentTasks s.maxConcurrentTasks (s.workers + 1)
  cases s.maxConcurrentTasks with
  | some m => simp [getMaxConcurrentTasks]
  | none =>
    simp only [getMaxConcurrentTasks]
    omega

/-! ### Preservation of each invariant by every transition -/

theorem queueInv_step {s s' : St} {l : Lab} (h : step s l = some s')
    (hs : QueueInv s) : QueueInv s' := by
  cases l with
  | register =>
    obtain rfl := Option.some.inj h
    exact queueInv_congr hs rfl rfl rfl
  | etin k =>
    obtain ⟨-, hcase⟩ := etinStep_eq h
    rcases hcase with ⟨-, -, -, rfl⟩ | ⟨-, -, -, rfl⟩ | ⟨-, rfl⟩
    · cases k <;> exact queueInv_congr hs rfl rfl rfl
    · exact queueInv_congr hs rfl rfl rfl
    · cases k <;> exact queueInv_congr hs rfl rfl rfl
  | providerReturn k =>
    obtain ⟨-, hcase⟩ := providerReturnStep_eq h
    rcases hcase with ⟨-, rfl⟩ | ⟨t, rest, -, rfl⟩
    · exact queueInv_congr hs rfl rfl rfl
    · exact queueInv_sptSync (queueInv_congr hs rfl rfl rfl)
  | tryShift =>
    obtain ⟨-, hcase⟩ := shiftStep_eq h
    rcases hcase with ⟨a, rest, hq, rfl⟩ | ⟨-, -, -, rfl⟩ | ⟨-, -, -, rfl⟩ | ⟨-, -, rfl⟩
    · refine ⟨?_⟩
      show s.submittedLog = (s.servedLog ++ [a]) ++ rest
      rw [hs.fifo, hq, List.append_assoc]
      rfl
    · exact queueInv_congr hs rfl rfl rfl
    · exact queueInv_congr hs rfl rfl rfl
    · exact queueInv_congr hs rfl rfl rfl
  | runnerDone aid ok =>
    obtain ⟨-, hcase⟩ := runnerResultStep_eq h
    rcases hcase with ⟨-, rfl⟩ | ⟨-, rfl⟩ <;> exact queueInv_congr hs rfl rfl rfl
  | sptResume =>
    obtain ⟨-, hcase⟩ := sptResumeStep_eq h
    rcases hcase with ⟨-, -, rfl⟩ | ⟨-, -, rfl⟩ | ⟨-, -, rfl⟩ | ⟨p, ps, -, -, rfl⟩ <;>
      exact queueInv_congr hs rfl rfl rfl
  | bodySubmit tid =>
    obtain ⟨b, n, rest, hf, hsegs, hcase⟩ := bodySubmitStep_eq h
    rcases hcase with ⟨-, rfl⟩ | ⟨-, rfl⟩ <;>
      exact ⟨by
        show s.submittedLog ++ List.range' s.nextAid n =
          s.servedLog ++ (s.queuedActions ++ List.range' s.nextAid n)
        rw [hs.fifo, List.append_assoc]⟩
  | bodyComplete tid =>
    obtain ⟨b, hf, hsegs, rfl⟩ := bodyCompleteStep_eq h
    exact queueInv_congr hs rfl rfl rfl

theorem actInv_etinExit {s : St} (hs : ActInv s) (k : EtinKind) :
    ActInv (etinExit s k) := by
  cases k
  · exact actInv_congr hs rfl (by
      show inflightL ((s.coros.erase (.etin .worker)) ++ [.tryShift]) =
        inflightL s.coros
      rw [@inflightL_append_nonrunner .tryShift rfl,
          @inflightL_erase_of_none (.etin .worker) rfl]) rfl rfl rfl rfl
  · exact actInv_congr hs rfl
      (@inflightL_erase_of_none (.etin .standalone) rfl _) rfl rfl rfl rfl

theorem actInv_step {s s' : St} {l : Lab} (h : step s l = some s')
    (hs : ActInv s) : ActInv s' := by
  cases l with
  | register =>
    obtain rfl := Option.some.inj h
    exact actInv_congr hs rfl (@inflightL_append_nonrunner (.etin .worker) rfl s.coros)
      rfl rfl rfl rfl
  | etin k =>
    obtain ⟨-, hcase⟩ := etinStep_eq h
    rcases hcase with ⟨-, -, -, rfl⟩ | ⟨-, -, -, rfl⟩ | ⟨-, rfl⟩
    · exact actInv_etinExit hs k
    · exact actInv_congr hs rfl
        (by rw [@inflightL_append_nonrunner (.awaitProvider k) rfl,
                @inflightL_erase_of_none (.etin k) rfl]) rfl rfl rfl rfl
    · exact actInv_etinExit hs k
  | providerReturn k =>
    obtain ⟨-, hcase⟩ := providerReturnStep_eq h
    rcases hcase with ⟨-, rfl⟩ | ⟨t, rest, -, rfl⟩
    · exact actInv_congr hs rfl
        (by rw [@inflightL_append_nonrunner (.etin k) rfl,
                @inflightL_erase_of_none (.awaitProvider k) rfl]) rfl rfl rfl rfl
    · exact actInv_sptSync (actInv_congr hs rfl
        (by rw [@inflightL_append_nonrunner (.etin k) rfl,
                @inflightL_erase_of_none (.awaitProvider k) rfl]) rfl rfl rfl rfl)
  | tryShift =>
    obtain ⟨-, hcase⟩ := shiftStep_eq h
    rcases hcase with ⟨a, rest, hq, rfl⟩ | ⟨-, -, -, rfl⟩ | ⟨-, -, -, rfl⟩ | ⟨-, -, rfl⟩
    · refine actInv_dequeue hs hq rfl ?_ rfl rfl rfl rfl
      show inflightL ((s.coros.erase .tryShift) ++ [.awaitRunner a]) =
        inflightL s.coros ++ [a]
      rw [inflightL_append, @inflightL_erase_of_none .tryShift rfl]
      rfl
    · exact actInv_congr hs rfl
        (by rw [@inflightL_append_nonrunner .notifyBlocked rfl,
                @inflightL_erase_of_none .tryShift rfl]) rfl rfl rfl rfl
    · exact actInv_congr hs rfl rfl rfl rfl rfl rfl
    · exact actInv_congr hs rfl (@inflightL_erase_of_none .tryShift rfl _)
        rfl rfl rfl rfl
  | runnerDone aid ok =>
    obtain ⟨hmem, hcase⟩ := runnerResultStep_eq h
    have hinf : aid ∈ inflightL s.coros := mem_inflightL hmem
    have hti : inflightL ((s.coros.erase (.awaitRunner aid)) ++ [.etin .worker]) =
        (inflightL s.coros).erase aid := by
      rw [@inflightL_append_nonrunner (.etin .worker) rfl, inflightL_erase_runner]
    rcases hcase with ⟨-, rfl⟩ | ⟨-, rfl⟩
    · exact actInv_runnerDone hs hinf hti rfl rfl (by simp) rfl rfl
    · exact actInv_runnerDone hs hinf hti rfl rfl (by simp) rfl rfl
  | sptResume =>
    obtain ⟨-, hcase⟩ := sptResumeStep_eq h
    rcases hcase with ⟨-, -, rfl⟩ | ⟨-, -, rfl⟩ | ⟨-, -, rfl⟩ | ⟨p, ps, -, -, rfl⟩
    · exact actInv_congr hs rfl
        (by rw [@inflightL_append_nonrunner (.spt true) rfl,
                @inflightL_erase_of_none (.spt false) rfl]) rfl rfl rfl rfl
    · exact actInv_congr hs rfl rfl rfl rfl rfl rfl
    · exact actInv_congr hs rfl (@inflightL_erase_of_none (.spt false) rfl _)
        rfl rfl rfl rfl
    · exact actInv_congr hs rfl (@inflightL_erase_of_none (.spt false) rfl _)
        rfl rfl rfl rfl
  | bodySubmit tid =>
    obtain ⟨b, n, rest, hf, hsegs, hcase⟩ := bodySubmitStep_eq h
    rcases hcase with ⟨-, rfl⟩ | ⟨-, rfl⟩
    · exact actInv_submit hs rfl rfl rfl rfl rfl rfl
    · refine actInv_submit hs rfl ?_ rfl rfl rfl rfl
      show inflightL (if s.notifyPending then s.coros.map wakeCoro else s.coros) =
        inflightL s.coros
      by_cases hn : s.notifyPending
      · rw [if_pos hn, inflightL_map_wake]
      · rw [if_neg hn]
  | bodyComplete tid =>
    obtain ⟨b, hf, hsegs, rfl⟩ := bodyCompleteStep_eq h
    refine actInv_congr hs rfl ?_ rfl rfl rfl rfl
    show inflightL ((if s.notifyPending then s.coros.map wakeCoro else s.coros)
      ++ [.etin .standalone]) = inflightL s.coros
    rw [@inflightL_append_nonrunner (.etin .standalone) rfl]
    by_cases hn : s.notifyPending
    · rw [if_pos hn, inflightL_map_wake]
    · rw [if_neg hn]

theorem taskInv_step {s s' : St} {l : Lab} (h : step s l = some s')
    (hs : TaskInv s) : TaskInv s' := by
  cases l with
  | register =>
    obtain rfl := Option.some.inj h
    exact taskInv_congr hs rfl rfl rfl rfl rfl rfl
  | etin k =>
    obtain ⟨-, hcase⟩ := etinStep_eq h
    rcases hcase with ⟨-, -, -, rfl⟩ | ⟨-, -, -, rfl⟩ | ⟨-, rfl⟩
    · cases k <;> exact taskInv_congr hs rfl rfl rfl rfl rfl rfl
    · exact taskInv_congr hs rfl rfl rfl rfl rfl rfl
    · cases k <;> exact taskInv_congr hs rfl rfl rfl rfl rfl rfl
  | providerReturn k =>
    obtain ⟨-, hcase⟩ := providerReturnStep_eq h
    rcases hcase with ⟨-, rfl⟩ | ⟨t, rest, -, rfl⟩
    · exact taskInv_congr hs rfl rfl rfl rfl rfl rfl
    · exact taskInv_sptSync (taskInv_newPending hs rfl rfl rfl rfl rfl rfl rfl)
  | tryShift =>
    obtain ⟨-, hcase⟩ := shiftStep_eq h
    rcases hcase with ⟨a, rest, hq, rfl⟩ | ⟨-, -, -, rfl⟩ | ⟨-, -, -, rfl⟩ | ⟨-, -, rfl⟩ <;>
      exact taskInv_congr hs rfl rfl rfl rfl rfl rfl
  | runnerDone aid ok =>
    obtain ⟨-, hcase⟩ := runnerResultStep_eq h
    rcases hcase with ⟨-, rfl⟩ | ⟨-, rfl⟩ <;>
      exact taskInv_congr hs rfl rfl rfl rfl rfl rfl
  | sptResume =>
    obtain ⟨-, hcase⟩ := sptResumeStep_eq h
    rcases hcase with ⟨-, -, rfl⟩ | ⟨-, -, rfl⟩ | ⟨-, -, rfl⟩ | ⟨p, ps, -, hp, rfl⟩
    · exact taskInv_congr hs rfl rfl rfl rfl rfl rfl
    · exact taskInv_congr hs rfl rfl rfl rfl rfl rfl
    · exact taskInv_congr hs rfl rfl rfl rfl rfl rfl
    · exact taskInv_start hs hp rfl rfl rfl rfl rfl rfl
  | bodySubmit tid =>
    obtain ⟨b, n, rest, hf, hsegs, hcase⟩ := bodySubmitStep_eq h
    rcases hcase with ⟨-, rfl⟩ | ⟨-, rfl⟩ <;>
      exact taskInv_submit hs rfl rfl rfl rfl rfl rfl
  | bodyComplete tid =>
    obtain ⟨b, hf, hsegs, rfl⟩ := bodyCompleteStep_eq h
    exact taskInv_complete hs hf rfl rfl rfl rfl rfl rfl

theorem ceilInv_step {s s' : St} {l : Lab} (h : step s l = some s')
    (hs : CeilInv s) : CeilInv s' := by
  cases l with
  | register =>
    obtain rfl := Option.some.inj h
    exact Nat.le_trans hs (ceiling_register s)
  | etin k =>
    obtain ⟨-, hcase⟩ := etinStep_eq h
    rcases hcase with ⟨-, -, -, rfl⟩ | ⟨-, -, -, rfl⟩ | ⟨-, rfl⟩
    · cases k <;> exact hs
    · exact hs
    · cases k <;> exact hs
  | providerReturn k =>
    obtain ⟨-, hcase⟩ := providerReturnStep_eq h
    rcases hcase with ⟨-, rfl⟩ | ⟨t, rest, -, rfl⟩
    · exact hs
    · exact ceilInv_sptSync hs
  | tryShift =>
    obtain ⟨-, hcase⟩ := shiftStep_eq h
    rcases hcase with ⟨a, rest, hq, rfl⟩ | ⟨-, -, -, rfl⟩ | ⟨-, -, -, rfl⟩ | ⟨-, -, rfl⟩ <;>
      exact hs
  | runnerDone aid ok =>
    obtain ⟨-, hcase⟩ := runnerResultStep_eq h
    rcases hcase with ⟨-, rfl⟩ | ⟨-, rfl⟩ <;> exact hs
  | sptResume =>
    obtain ⟨-, hcase⟩ := sptResumeStep_eq h
    rcases hcase with ⟨-, -, rfl⟩ | ⟨-, -, rfl⟩ | ⟨-, -, rfl⟩ | ⟨p, ps, hlt, hp, rfl⟩
    · exact hs
    · exact hs
    · exact hs
    · show (s.runningTasks ++ [p.tid]).length ≤ ceiling s
      rw [List.length_append]
      simpa using hlt
  | bodySubmit tid =>
    obtain ⟨b, n, rest, hf, hsegs, hcase⟩ := bodySubmitStep_eq h
    rcases hcase with ⟨-, rfl⟩ | ⟨-, rfl⟩ <;> exact hs
  | bodyComplete tid =>
    obtain ⟨b, hf, hsegs, rfl⟩ := bodyCompleteStep_eq h
    exact Nat.le_trans (List.Sublist.length_le (List.erase_sublist _ _)) hs

/-! ### Invariants hold along every run -/

theorem run_preserve {P : St → Prop}
    (hstep : ∀ s l s', step s l = some s' → P s → P s') :
    ∀ (ls : List Lab) (s s' : St), run s ls = some s' → P s → P s' := by
  intro ls
  induction ls with
  | nil =>
    intro s s' h hp
    simp only [run] at h
    exact (Option.some.inj h) ▸ hp
  | cons l ls ih =>
    intro s s' h hp
    simp only [run] at h
    cases hst : step s l with
    | none => rw [hst] at h; exact Option.noConfusion h
    | some s1 =>
      rw [hst] at h
      exact ih s1 s' h (hstep s l s1 hst hp)

theorem queueInv_init (mc : Option Nat) (sup : List TaskSpec) :
    QueueInv (mkInit mc sup) :=
  ⟨rfl⟩

theorem actInv_init (mc : Option Nat) (sup : List TaskSpec) :
    ActInv (mkInit mc sup) := by
  constructor <;> simp [mkInit, inflightL]

theorem taskInv_init (mc : Option Nat) (sup : List TaskSpec) :
    TaskInv (mkInit mc sup) := by
  constructor <;> simp [mkInit]

theorem ceilInv_init (mc : Option Nat) (sup : List TaskSpec) :
    CeilInv (mkInit mc sup) := by
  show (0 : Nat) ≤ ceiling (mkInit mc sup)
  exact Nat.zero_le _

theorem queueInv_run {mc : Option Nat} {sup : List TaskSpec} {ls : List Lab} {s' : St}
    (h : run (mkInit mc sup) ls = some s') : QueueInv s' :=
  run_preserve (fun _ _ _ hst hp => queueInv_step hst hp) ls _ s' h (queueInv_init mc sup)

theorem actInv_run {mc : Option Nat} {sup : List TaskSpec} {ls : List Lab} {s' : St}
    (h : run (mkInit mc sup) ls = some s') : ActInv s' :=
  run_preserve (fun _ _ _ hst hp => actInv_step hst hp) ls _ s' h (actInv_init mc sup)

theorem taskInv_run {mc : Option Nat} {sup : List TaskSpec} {ls : List Lab} {s' : St}
    (h : run (mkInit mc sup) ls = some s') : TaskInv s' :=
  run_preserve (fun _ _ _ hst hp => taskInv_step hst hp) ls _ s' h (taskInv_init mc sup)

theorem ceilInv_run {mc : Option Nat} {sup : List TaskSpec} {ls : List Lab} {s' : St}
    (h : run (mkInit mc sup) ls = some s') : CeilInv s' :=
  run_preserve (fun _ _ _ hst hp => ceilInv_step hst hp) ls _ s' h (ceilInv_init mc sup)

/-! ### The completion signal, the provider-query counter, and the
in-flight registry along transitions -/

theorem sptSync_scalars (s : St) :
    (sptSync s).queries = s.queries ∧
    (sptSync s).taskProviderLive = s.taskProviderLive ∧
    (sptSync s).finished = s.finished ∧
    (sptSync s).queuedActions = s.queuedActions ∧
    (sptSync s).runningActions = s.runningActions := by
  rcases sptSync_cases s with hc | hc | hc | ⟨p, ps, hp, hlt, hc⟩ <;> rw [hc] <;>
    exact ⟨rfl, rfl, rfl, rfl, rfl⟩

theorem finished_mono {s s' : St} {l : Lab} (h : step s l = some s')
    (hf : s.finished = true) : s'.finished = true := by
  cases l with
  | register =>
    obtain rfl := Option.some.inj h
    exact hf
  | etin k =>
    obtain ⟨-, hcase⟩ := etinStep_eq h
    rcases hcase with ⟨-, -, -, rfl⟩ | ⟨-, -, -, rfl⟩ | ⟨-, rfl⟩
    · cases k <;> exact hf
    · exact hf
    · cases k <;> exact hf
  | providerReturn k =>
    obtain ⟨-, hcase⟩ := providerReturnStep_eq h
    rcases hcase with ⟨-, rfl⟩ | ⟨t, rest, -, rfl⟩
    · exact hf
    · rw [(sptSync_scalars _).2.2.1]
      exact hf
  | tryShift =>
    obtain ⟨-, hcase⟩ := shiftStep_eq h
    rcases hcase with ⟨a, rest, hq, rfl⟩ | ⟨-, -, -, rfl⟩ | ⟨-, -, -, rfl⟩ | ⟨-, -, rfl⟩
    · exact hf
    · exact hf
    · exact hf
    · rfl
  | runnerDone aid ok =>
    obtain ⟨-, hcase⟩ := runnerResultStep_eq h
    rcases hcase with ⟨-, rfl⟩ | ⟨-, rfl⟩ <;> exact hf
  | sptResume =>
    obtain ⟨-, hcase⟩ := sptResumeStep_eq h
    rcases hcase with ⟨-, -, rfl⟩ | ⟨-, -, rfl⟩ | ⟨-, -, rfl⟩ | ⟨p, ps, -, -, rfl⟩ <;>
      exact hf
  | bodySubmit tid =>
    obtain ⟨b, n, rest, hf2, hsegs, hcase⟩ := bodySubmitStep_eq h
    rcases hcase with ⟨-, rfl⟩ | ⟨-, rfl⟩ <;> exact hf
  | bodyComplete tid =>
    obtain ⟨b, hf2, hsegs, rfl⟩ := bodyCompleteStep_eq h
    exact hf

theorem flip_fire {s s' : St} {l : Lab} (h : step s l = some s')
    (h0 : s.finished = false) (h1 : s'.finished = true) :
    s.queuedActions = [] ∧ s.runningTasks = [] := by
  cases l with
  | register =>
    obtain rfl := Option.some.inj h
    exact Bool.noConfusion (h0.symm.trans h1)
  | etin k =>
    obtain ⟨-, hcase⟩ := etinStep_eq h
    rcases hcase with ⟨-, -, -, rfl⟩ | ⟨-, -, -, rfl⟩ | ⟨-, rfl⟩
    · cases k <;> exact Bool.noConfusion (h0.symm.trans h1)
    · exact Bool.noConfusion (h0.symm.trans h1)
    · cases k <;> exact Bool.noConfusion (h0.symm.trans h1)
  | providerReturn k =>
    obtain ⟨-, hcase⟩ := providerReturnStep_eq h
    rcases hcase with ⟨-, rfl⟩ | ⟨t, rest, -, rfl⟩
    · exact Bool.noConfusion (h0.symm.trans h1)
    · rw [(sptSync_scalars _).2.2.1] at h1
      exact Bool.noConfusion (h0.symm.trans h1)
  | tryShift =>
    obtain ⟨-, hcase⟩ := shiftStep_eq h
    rcases hcase with ⟨a, rest, hq, rfl⟩ | ⟨-, -, -, rfl⟩ | ⟨-, -, -, rfl⟩ | ⟨hq, hr, rfl⟩
    · exact Bool.noConfusion (h0.symm.trans h1)
    · exact Bool.noConfusion (h0.symm.trans h1)
    · exact Bool.noConfusion (h0.symm.trans h1)
    · exact ⟨hq, List.length_eq_zero.mp hr⟩
  | runnerDone aid ok =>
    obtain ⟨-, hcase⟩ := runnerResultStep_eq h
    rcases hcase with ⟨-, rfl⟩ | ⟨-, rfl⟩ <;>
      exact Bool.noConfusion (h0.symm.trans h1)
  | sptResume =>
    obtain ⟨-, hcase⟩ := sptResumeStep_eq h
    rcases hcase with ⟨-, -, rfl⟩ | ⟨-, -, rfl⟩ | ⟨-, -, rfl⟩ | ⟨p, ps, -, -, rfl⟩ <;>
      exact Bool.noConfusion (h0.symm.trans h1)
  | bodySubmit tid =>
    obtain ⟨b, n, rest, hf2, hsegs, hcase⟩ := bodySubmitStep_eq h
    rcases hcase with ⟨-, rfl⟩ | ⟨-, rfl⟩ <;>
      exact Bool.noConfusion (h0.symm.trans h1)
  | bodyComplete tid =>
    obtain ⟨b, hf2, hsegs, rfl⟩ := bodyCompleteStep_eq h
    exact Bool.noConfusion (h0.symm.trans h1)

theorem flipCount_of_finished :
    ∀ (ls : List Lab) (s : St), s.finished = true → flipCount s ls = 0 := by
  intro ls
  induction ls with
  | nil => intro s _; rfl
  | cons l ls ih =>
    intro s hf
    simp only [flipCount]
    cases hst : step s l with
    | none => rfl
    | some s1 =>
      have h1 : s1.finished = true := finished_mono hst hf
      simp [hf, ih s1 h1]

theorem flipCount_le_one : ∀ (ls : List Lab) (s : St), flipCount s ls ≤ 1 := by
  intro ls
  induction ls with
  | nil => intro s; exact Nat.zero_le 1
  | cons l ls ih =>
    intro s
    simp only [flipCount]
    cases hst : step s l with
    | none => exact Nat.zero_le 1
    | some s1 =>
      show ((if s.finished = false ∧ s1.finished = true then 1 else 0) +
        flipCount s1 ls) ≤ 1
      by_cases hfl : s.finished = false ∧ s1.finished = true
      · rw [if_pos hfl]
        have h0 : flipCount s1 ls = 0 := flipCount_of_finished ls s1 hfl.2
        omega
      · rw [if_neg hfl]
        have h2 := ih s1
        omega

theorem query_precondition {s s' : St} {l : Lab} (h : step s l = some s')
    (hq : s.queries < s'.queries) :
    s.queuedActions = [] ∧ s.taskProviderLive = true ∧
    s.runningTasks.length < ceiling s := by
  cases l with
  | register =>
    obtain rfl := Option.some.inj h
    exact absurd hq (Nat.lt_irrefl _)
  | etin k =>
    obtain ⟨-, hcase⟩ := etinStep_eq h
    rcases hcase with ⟨-, -, -, rfl⟩ | ⟨he, hl, hc, rfl⟩ | ⟨-, rfl⟩
    · cases k <;> exact absurd hq (Nat.lt_irrefl _)
    · exact ⟨he, hl, hc⟩
    · cases k <;> exact absurd hq (Nat.lt_irrefl _)
  | providerReturn k =>
    obtain ⟨-, hcase⟩ := providerReturnStep_eq h
    rcases hcase with ⟨-, rfl⟩ | ⟨t, rest, -, rfl⟩
    · exact absurd hq (Nat.lt_irrefl _)
    · rw [(sptSync_scalars _).1] at hq
      exact absurd hq (Nat.lt_irrefl _)
  | tryShift =>
    obtain ⟨-, hcase⟩ := shiftStep_eq h
    rcases hcase with ⟨a, rest, hq2, rfl⟩ | ⟨-, -, -, rfl⟩ | ⟨-, -, -, rfl⟩ | ⟨-, -, rfl⟩ <;>
      exact absurd hq (Nat.lt_irrefl _)
  | runnerDone aid ok =>
    obtain ⟨-, hcase⟩ := runnerResultStep_eq h
    rcases hcase with ⟨-, rfl⟩ | ⟨-, rfl⟩ <;> exact absurd hq (Nat.lt_irrefl _)
  | sptResume =>
    obtain ⟨-, hcase⟩ := sptResumeStep_eq h
    rcases hcase with ⟨-, -, rfl⟩ | ⟨-, -, rfl⟩ | ⟨-, -, rfl⟩ | ⟨p, ps, -, -, rfl⟩ <;>
      exact absurd hq (Nat.lt_irrefl _)
  | bodySubmit tid =>
    obtain ⟨b, n, rest, hf, hsegs, hcase⟩ := bodySubmitStep_eq h
    rcases hcase with ⟨-, rfl⟩ | ⟨-, rfl⟩ <;> exact absurd hq (Nat.lt_irrefl _)
  | bodyComplete tid =>
    obtain ⟨b, hf, hsegs, rfl⟩ := bodyCompleteStep_eq h
    exact absurd hq (Nat.lt_irrefl _)

theorem step_dead_provider {s s' : St} {l : Lab} (h : step s l = some s')
    (hd : s.taskProviderLive = false) :
    s'.queries = s.queries ∧ s'.taskProviderLive = false := by
  cases l with
  | register =>
    obtain rfl := Option.some.inj h
    exact ⟨rfl, hd⟩
  | etin k =>
    obtain ⟨-, hcase⟩ := etinStep_eq h
    rcases hcase with ⟨-, hl, -, rfl⟩ | ⟨-, hl, -, rfl⟩ | ⟨-, rfl⟩
    · exact absurd hl (by rw [hd]; exact Bool.false_ne_true)
    · exact absurd hl (by rw [hd]; exact Bool.false_ne_true)
    · cases k <;> exact ⟨rfl, hd⟩
  | providerReturn k =>
    obtain ⟨-, hcase⟩ := providerReturnStep_eq h
    rcases hcase with ⟨-, rfl⟩ | ⟨t, rest, -, rfl⟩
    · exact ⟨rfl, rfl⟩
    · exact ⟨(sptSync_scalars _).1, ((sptSync_scalars _).2.1).trans hd⟩
  | tryShift =>
    obtain ⟨-, hcase⟩ := shiftStep_eq h
    rcases hcase with ⟨a, rest, hq, rfl⟩ | ⟨-, -, -, rfl⟩ | ⟨-, -, -, rfl⟩ | ⟨-, -, rfl⟩ <;>
      exact ⟨rfl, hd⟩
  | runnerDone aid ok =>
    obtain ⟨-, hcase⟩ := runnerResultStep_eq h
    rcases hcase with ⟨-, rfl⟩ | ⟨-, rfl⟩ <;> exact ⟨rfl, hd⟩
  | sptResume =>
    obtain ⟨-, hcase⟩ := sptResumeStep_eq h
    rcases hcase with ⟨-, -, rfl⟩ | ⟨-, -, rfl⟩ | ⟨-, -, rfl⟩ | ⟨p, ps, -, -, rfl⟩ <;>
      exact ⟨rfl, hd⟩
  | bodySubmit tid =>
    obtain ⟨b, n, rest, hf, hsegs, hcase⟩ := bodySubmitStep_eq h
    rcases hcase with ⟨-, rfl⟩ | ⟨-, rfl⟩ <;> exact ⟨rfl, hd⟩
  | bodyComplete tid =>
    obtain ⟨b, hf, hsegs, rfl⟩ := bodyCompleteStep_eq h
    exact ⟨rfl, hd⟩

theorem run_dead_provider :
    ∀ (ls : List Lab) (s s' : St), run s ls = some s' → s.taskProviderLive = false →
      s'.queries = s.queries ∧ s'.taskProviderLive = false := by
  intro ls
  induction ls with
  | nil =>
    intro s s' h hd
    simp only [run] at h
    exact (Option.some.inj h) ▸ ⟨rfl, hd⟩
  | cons l ls ih =>
    intro s s' h hd
    simp only [run] at h
    cases hst : step s l with
    | none => rw [hst] at h; exact Option.noConfusion h
    | some s1 =>
      rw [hst] at h
      obtain ⟨hq1, hd1⟩ := step_dead_provider hst hd
      obtain ⟨hq2, hd2⟩ := ih s1 s' h hd1
      exact ⟨hq2.trans hq1, hd2⟩

theorem runningActions_mono_step {s s' : St} {l : Lab} (h : step s l = some s') :
    ∀ a ∈ s.runningActions, a ∈ s'.runningActions := by
  cases l with
  | register =>
    obtain rfl := Option.some.inj h
    exact fun a ha => ha
  | etin k =>
    obtain ⟨-, hcase⟩ := etinStep_eq h
    rcases hcase with ⟨-, -, -, rfl⟩ | ⟨-, -, -, rfl⟩ | ⟨-, rfl⟩
    · cases k <;> exact fun a ha => ha
    · exact fun a ha => ha
    · cases k <;> exact fun a ha => ha
  | providerReturn k =>
    obtain ⟨-, hcase⟩ := providerReturnStep_eq h
    rcases hcase with ⟨-, rfl⟩ | ⟨t, rest, -, rfl⟩
    · exact fun a ha => ha
    · intro a ha
      rw [(sptSync_scalars _).2.2.2.2]
      exact ha
  | tryShift =>
    obtain ⟨-, hcase⟩ := shiftStep_eq h
    rcases hcase with ⟨a, rest, hq, rfl⟩ | ⟨-, -, -, rfl⟩ | ⟨-, -, -, rfl⟩ | ⟨-, -, rfl⟩
    · exact fun x hx => List.mem_append_left _ hx
    · exact fun x hx => hx
    · exact fun x hx => hx
    · exact fun x hx => hx
  | runnerDone aid ok =>
    obtain ⟨-, hcase⟩ := runnerResultStep_eq h
    rcases hcase with ⟨-, rfl⟩ | ⟨-, rfl⟩ <;> exact fun a ha => ha
  | sptResume =>
    obtain ⟨-, hcase⟩ := sptResumeStep_eq h
    rcases hcase with ⟨-, -, rfl⟩ | ⟨-, -, rfl⟩ | ⟨-, -, rfl⟩ | ⟨p, ps, -, -, rfl⟩ <;>
      exact fun a ha => ha
  | bodySubmit tid =>
    obtain ⟨b, n, rest, hf, hsegs, hcase⟩ := bodySubmitStep_eq h
    rcases hcase with ⟨-, rfl⟩ | ⟨-, rfl⟩ <;> exact fun a ha => ha
  | bodyComplete tid =>
    obtain ⟨b, hf, hsegs, rfl⟩ := bodyCompleteStep_eq h
    exact fun a ha => ha

theorem runningActions_mono_run :
    ∀ (ls : List Lab) (s s' : St), run s ls = some s' →
      ∀ a ∈ s.runningActions, a ∈ s'.runningActions := by
  intro ls
  induction ls with
  | nil =>
    intro s s' h
    simp only [run] at h
    exact (Option.some.inj h) ▸ fun a ha => ha
  | cons l ls ih =>
    intro s s' h
    simp only [run] at h
    cases hst : step s l with
    | none => rw [hst] at h; exact Option.noConfusion h
    | some s1 =>
      rw [hst] at h
      exact fun a ha => ih s1 s' h a (runningActions_mono_step hst a ha)

/-! ### The claims -/

/-- C1: the claim states that the `waitUntilFinished` handle completes
iff and only after the supply has signaled exhaustion AND the running
count is zero AND the action queue is empty.  The code violates the
exhaustion conjunct: with an explicit concurrency ceiling of 0, one
registered worker and a non-empty supply, the worker's first pull
breaks out of `enqueueTasksIfNeeded` at the ceiling check, finds the
queue empty and no task running, and fires `_finishedResolve()` —
while `this.taskProvider()` was never invoked (`queries = 0`), so the
supply never signaled exhaustion and still holds its task.  This
contradicts the source's own comment at the firing site (`// no more
tasks and no queued actions, we're done`).  The at-most-once half of
the claim does hold: along every schedule the completion flag flips at
most once. -/
theorem c1_finished_without_exhaustion :
    (run zeroCeilInit zeroCeilLabs = some zeroCeilFinal ∧
     zeroCeilFinal.finished = true ∧
     zeroCeilFinal.taskProviderLive = true ∧
     zeroCeilFinal.queries = 0 ∧
     zeroCeilFinal.supply = [⟨[1], false⟩]) ∧
    (∀ (ls : List Lab) (s : St), flipCount s ls ≤ 1) :=
  ⟨by decide, flipCount_le_one⟩

/-- C2: when a worker's runner for a dequeued action fails, the
distribution loop records the failure (`.catch(() => 'failed')`, and
the worker's pull loop continues), but the promise handed back to the
submitting task by `performAction` is left pending forever: it is
never resolved (in this and every later state, a failed action's
identity is outside `resolvedActions`, which records the `callback`
invocations) and never rejected (the `reject` binder of line 78 is
never invoked, so `rejectedActions` is always empty). -/
theorem c2_failed_action_handle_never_settled :
    ∀ (mc : Option Nat) (sup : List TaskSpec) (ls : List Lab) (s' : St),
      run (mkInit mc sup) ls = some s' →
      (∀ (s2 : St) (aid : Nat), step s' (.runnerDone aid false) = some s2 →
          s2.runnerLog = s'.runnerLog ++ [(aid, false)] ∧
          s2.resolvedActions = s'.resolvedActions ∧
          s2.rejectedActions = s'.rejectedActions ∧
          s2.coros = (s'.coros.erase (.awaitRunner aid)) ++ [.etin .worker]) ∧
      (∀ aid : Nat, (aid, false) ∈ s'.runnerLog → aid ∉ s'.resolvedActions) ∧
      s'.rejectedActions = [] := by
  intro mc sup ls s' h
  have hA := actInv_run h
  refine ⟨?_, ?_, hA.rej⟩
  · intro s2 aid hst
    obtain ⟨-, hcase⟩ := runnerResultStep_eq hst
    rcases hcase with ⟨hok, rfl⟩ | ⟨-, rfl⟩
    · exact Bool.noConfusion hok
    · exact ⟨rfl, rfl, rfl, rfl⟩
  · intro aid hmem hres
    rw [hA.res] at hres
    rcases List.mem_map.mp hres with ⟨p, hp, hpe⟩
    have hp2 := List.mem_filter.mp hp
    have hpt : p = (aid, true) := by
      cases p with
      | mk x y =>
        have hy : y = true := by simpa using hp2.2
        have hx : x = aid := hpe
        rw [hx, hy]
    have hmem2 : (aid, true) ∈ s'.runnerLog := by
      rw [← hpt]
      exact hp2.1
    have heq := List.inj_on_of_nodup_map hA.lNodup hmem hmem2 rfl
    simp at heq

/-- Witness for C2 at the concrete failed-runner run: the single
submitted action's runner fails; its handle is unresolved and nothing
was ever rejected. -/
theorem c2_failed_action_handle_never_settled_witness :
    (0, false) ∈ failRunnerFinal.runnerLog ∧
    0 ∉ failRunnerFinal.resolvedActions ∧
    failRunnerFinal.rejectedActions = [] := by
  have h : run (mkInit none [⟨[1], false⟩]) failRunnerLabs = some failRunnerFinal := by
    decide
  have hc := c2_failed_action_handle_never_settled none [⟨[1], false⟩]
    failRunnerLabs failRunnerFinal h
  exact ⟨by decide, hc.2.1 0 (by decide), hc.2.2⟩

/-- C3 counterexample: the claim states that a dequeued action is
removed from the in-flight registry exactly once, on success or on
failure.  In the concrete run below the single action was dequeued,
its runner succeeded (`(0, true)` is in the runner log, the submitter's
handle was resolved), yet the action still sits in `runningActions`:
no code path of the source ever removes an entry from
`runningActions`. -/
theorem c3_counterexample_registry_never_cleared :
    run demoInit okRunnerLabs = some okRunnerFinal ∧
    (0, true) ∈ okRunnerFinal.runnerLog ∧
    0 ∈ okRunnerFinal.resolvedActions ∧
    0 ∈ okRunnerFinal.runningActions := by decide

/-- C3 amended: every action dequeued by a worker is pushed onto
`runningActions` at dequeue time, but entries are never removed — the
registry grows monotonically for the remainder of every run, whether
executions succeed or fail. -/
theorem c3_amended_registry_append_only :
    (∀ (s s' : St) (a : Nat) (rest : List Nat),
        step s .tryShift = some s' → s.queuedActions = a :: rest →
        s'.runningActions = s.runningActions ++ [a]) ∧
    (∀ (ls : List Lab) (s s' : St), run s ls = some s' →
        ∀ a ∈ s.runningActions, a ∈ s'.runningActions) := by
  constructor
  · intro s s' a rest hst hq
    obtain ⟨-, hcase⟩ := shiftStep_eq hst
    rcases hcase with ⟨a2, rest2, hq2, rfl⟩ | ⟨hq2, -, -, rfl⟩ |
      ⟨hq2, -, -, rfl⟩ | ⟨hq2, -, rfl⟩
    · rw [hq] at hq2
      injection hq2 with h1 h2
      rw [h1]
    · rw [hq] at hq2
      exact List.noConfusion hq2
    · rw [hq] at hq2
      exact List.noConfusion hq2
    · rw [hq] at hq2
      exact List.noConfusion hq2
  · exact runningActions_mono_run

/-- Witness for the amended C3 at the concrete dequeue of the
demonstration run. -/
theorem c3_amended_registry_append_only_witness :
    postShiftState.runningActions = preShiftState.runningActions ++ [0] :=
  c3_amended_registry_append_only.1 preShiftState postShiftState 0 []
    (by decide) (by decide)

/-- C4: actions are handed to workers in exactly the global order in
which they were submitted via `performAction`: in every reachable
state, the submission log (one entry per `queuedActions.push`, in
order, across all submitting tasks) equals the served log (one entry
per successful `queuedActions.shift()`, in dequeue order) followed by
the still-queued actions — so the dequeue order is always a prefix of
the global submission order. -/
theorem c4_global_fifo :
    ∀ (mc : Option Nat) (sup : List TaskSpec) (ls : List Lab) (s' : St),
      run (mkInit mc sup) ls = some s' →
      s'.submittedLog = s'.servedLog ++ s'.queuedActions :=
  fun _ _ _ _ h => (queueInv_run h).fifo

/-- Witness for C4 at the finished demonstration run. -/
theorem c4_global_fifo_witness :
    demoFinal.submittedLog = demoFinal.servedLog ++ demoFinal.queuedActions :=
  c4_global_fifo none [⟨[1], false⟩] demoLabs demoFinal (by decide)

/-- C5: at every observable instant of every run, the number of
running tasks is at most the effective concurrency ceiling of that
instant (the configured value, or three times the current worker
count). -/
theorem c5_running_le_ceiling :
    ∀ (mc : Option Nat) (sup : List TaskSpec) (ls : List Lab) (s' : St),
      run (mkInit mc sup) ls = some s' →
      s'.runningTasks.length ≤ ceiling s' :=
  fun _ _ _ _ h => ceilInv_run h

/-- Witness for C5 at the finished demonstration run. -/
theorem c5_running_le_ceiling_witness :
    demoFinal.runningTasks.length ≤ ceiling demoFinal :=
  c5_running_le_ceiling none [⟨[1], false⟩] demoLabs demoFinal (by decide)

/-- C6: the claim states that every `wait()` call returns a handle
completing at the next `notifyAll()`.  The code's `waitForNotify`
(lines 38-41) returns the pending promise only when one already
exists; in the installing case it creates `_notifyPromise` but falls
through without a `return` statement, so the caller receives
`undefined` and its `await` completes immediately — before any
`notifyAll`.  The no-op half of the claim holds: `notifyAll` with no
pending signal changes nothing and completes nothing. -/
theorem c6_waitForNotify_missing_return :
    waitForNotify { pending := false } = ({ pending := true }, .undef) ∧
    waitForNotify { pending := true } = ({ pending := true }, .pendingHandle) ∧
    notifyAll { pending := false } = ({ pending := false }, false) := by
  decide

/-- C7: with no explicit configuration the effective ceiling is three
times the number of currently registered workers, recomputed at each
consultation: registering a worker raises the derived ceiling by
three, and with two workers it evaluates to six. -/
theorem c7_derived_ceiling :
    (∀ w : Nat, getMaxConcurrentTasks none w = 3 * w) ∧
    (∀ s : St, s.maxConcurrentTasks = none →
        ceiling (registerWorkerStep s) = ceiling s + 3) ∧
    getMaxConcurrentTasks none 2 = 6 := by
  refine ⟨fun w => ?_, fun s hmc => ?_, rfl⟩
  · simp [getMaxConcurrentTasks, Nat.mul_comm]
  · show getMaxConcurrentTasks s.maxConcurrentTasks (s.workers + 1) =
      getMaxConcurrentTasks s.maxConcurrentTasks s.workers + 3
    rw [hmc]
    simp only [getMaxConcurrentTasks]
    omega

/-- Witness for C7: registering a worker on a fresh default-configured
operation raises the derived ceiling by three. -/
theorem c7_derived_ceiling_witness :
    ceiling (registerWorkerStep (mkInit none [])) = ceiling (mkInit none []) + 3 :=
  c7_derived_ceiling.2.1 (mkInit none []) rfl

/-- C8: every invocation of the task provider (a transition that
increments the `queries` counter, placed exactly at the
`this.taskProvider()` call of line 125) happens at an instant where
the queued-action backlog is empty and the running-task count is
strictly below the effective ceiling. -/
theorem c8_provider_query_preconditions :
    ∀ (s s' : St) (l : Lab), step s l = some s' → s.queries < s'.queries →
      s.queuedActions = [] ∧ s.runningTasks.length < ceiling s :=
  fun _ _ _ h hq => ⟨(query_precondition h hq).1, (query_precondition h hq).2.2⟩

/-- Witness for C8 at the first provider query of the demonstration
run. -/
theorem c8_provider_query_preconditions_witness :
    queryPreState.queuedActions = [] ∧
    queryPreState.runningTasks.length < ceiling queryPreState :=
  c8_provider_query_preconditions queryPreState queryPostState (.etin .worker)
    (by decide) (by decide)

/-- C9: once the provider has returned the exhaustion marker —
`this.taskProvider` is null, i.e. `taskProviderLive = false`, which
only the exhaustion return of lines 126-129 establishes — no
continuation of the run ever invokes the provider again (the `queries`
counter never moves) and the provider stays permanently null. -/
theorem c9_provider_never_queried_after_exhaustion :
    ∀ (ls : List Lab) (s s' : St), run s ls = some s' →
      s.taskProviderLive = false →
      s'.queries = s.queries ∧ s'.taskProviderLive = false :=
  run_dead_provider

/-- Witness for C9: extending the finished demonstration run (whose
provider has signaled exhaustion) by another step leaves the query
count unchanged. -/
theorem c9_provider_never_queried_after_exhaustion_witness :
    postDemoState.queries = demoFinal.queries ∧
    postDemoState.taskProviderLive = false :=
  c9_provider_never_queried_after_exhaustion [.register] demoFinal postDemoState
    (by decide) (by decide)

/-- C10: in every reachable state the failed-tasks list is exactly the
list of started tasks whose body rejected (one entry per rejection, in
settlement order, hence each rejected task appears exactly once), and
a task whose body resolved successfully is out of the running set and
never in the failed list. -/
theorem c10_failed_tasks_exact :
    ∀ (mc : Option Nat) (sup : List TaskSpec) (ls : List Lab) (s' : St),
      run (mkInit mc sup) ls = some s' →
      s'.failedTasks = (s'.bodyLog.filter (fun p => !p.2)).map Prod.fst ∧
      s'.failedTasks.Nodup ∧
      (∀ t : Nat, (t, true) ∈ s'.bodyLog →
        t ∉ s'.failedTasks ∧ t ∉ s'.runningTasks) := by
  intro mc sup ls s' h
  have hT := taskInv_run h
  refine ⟨hT.failed, ?_, ?_⟩
  · rw [hT.failed]
    exact List.Nodup.sublist (List.Sublist.map _ (List.filter_sublist _)) hT.gNodup
  · intro t hmem
    constructor
    · intro hmemf
      rw [hT.failed] at hmemf
      rcases List.mem_map.mp hmemf with ⟨p, hp, hpe⟩
      have hp2 := List.mem_filter.mp hp
      have hpt : p = (t, false) := by
        cases p with
        | mk x y =>
          have hy : y = false := by simpa using hp2.2
          have hx : x = t := hpe
          rw [hx, hy]
      have hmem2 : (t, false) ∈ s'.bodyLog := by
        rw [← hpt]
        exact hp2.1
      have heq := List.inj_on_of_nodup_map hT.gNodup hmem hmem2 rfl
      simp at heq
    · intro hmemr
      rw [hT.run_eq] at hmemr
      exact hT.bg t hmemr (List.mem_map_of_mem _ hmem)

/-- Witness for C10 at the failing-task run: the single task's body
rejects and the failed list is exactly that task, once. -/
theorem c10_failed_tasks_exact_witness :
    failTaskFinal.failedTasks.Nodup ∧ failTaskFinal.failedTasks = [0] := by
  have hc := c10_failed_tasks_exact none [⟨[], true⟩] failTaskLabs failTaskFinal
    (by decide)
  exact ⟨hc.2.1, by decide⟩

end Disperse
